import Mathlib

/-!
Shallow embedding of the technical-analysis engine of `stock_predictor_agent.py`
(advay3011/stock-predictor), together with proofs checking the natural-language
specification against it.

Conventions of the embedding:
* Python floats are modelled as exact rationals (`ℚ`); `round(x, 2)` is modelled
  by `round2` (round half to even, as CPython does).
* `json.loads` is not modelled as a string parser; an input string is modelled by
  its parse outcome `Option Json` (`none` = unparseable text).
* Each tool's `try ... except` wrapper is modelled by computing the body in
  `Except String` and converting any error into a `failed` result (`PyResult`).
* A Python runtime fault (ZeroDivisionError, IndexError, KeyError, TypeError) is
  modelled by an `Except.error` with a corresponding message, raised by an explicit
  guard placed where the first fault would occur on that input.
* Python's stable `list.sort(key=..., reverse=True)` is modelled by the stable
  insertion sort `sortDesc` (extensionally equal to any stable sort by the same key).
-/

namespace StockPred

/-- Round half to even (the rounding used by CPython's `round`). -/
def roundHalfEven (q : ℚ) : ℤ :=
  let f := ⌊q⌋
  let r := q - f
  if r < 1/2 then f
  else if 1/2 < r then f + 1
  else if Even f then f else f + 1

/-- Model of Python `round(x, 2)`. -/
def round2 (q : ℚ) : ℚ := (roundHalfEven (q * 100) : ℚ) / 100

/-- Model of Python `int(x)`: truncation toward zero. -/
def pyTrunc (q : ℚ) : ℤ := if 0 ≤ q then ⌊q⌋ else -⌊-q⌋

/-- Model of Python `min(l)` for a nonempty list (the `[]` case is unreachable
at every use site, which is guarded by a nonemptiness check). -/
def pyMinD (l : List ℚ) : ℚ :=
  match l with
  | [] => 0
  | h :: t => t.foldl min h

/-- Model of Python `max(l)` for a nonempty list (the `[]` case is unreachable
at every use site, which is guarded by a nonemptiness check). -/
def pyMaxD (l : List ℚ) : ℚ :=
  match l with
  | [] => 0
  | h :: t => t.foldl max h

/-- Python slice `l[-k:]` for `k ≥ 1`: the last `k` elements (all of them if
fewer than `k` exist). -/
def lastN (k : ℕ) (l : List α) : List α := l.drop (l.length - k)

/-- Python `data[-days_back:] if len(data) >= days_back else data`
(note `l[-0:]` is the whole list). -/
def windowOf (db : ℕ) (data : List α) : List α :=
  if data.length ≥ db then (if db = 0 then data else data.drop (data.length - db))
  else data

/-- Model of Python `str.upper()` (ASCII). -/
def strUpper (s : String) : String := ⟨s.data.map Char.toUpper⟩

/-- Stable insert for a descending insertion sort keyed by `key`:
`a` goes in front of the first element whose key is `≤ key a`. -/
def insertDesc (key : α → ℤ) (a : α) : List α → List α
  | [] => [a]
  | b :: t => if key b ≤ key a then a :: b :: t else b :: insertDesc key a t

/-- Stable descending sort by an integer key; models Python's stable
`list.sort(key=..., reverse=True)`. -/
def sortDesc (key : α → ℤ) : List α → List α
  | [] => []
  | a :: t => insertDesc key a (sortDesc key t)

/-- Insert for an ascending insertion sort on rationals. -/
def insertRat (a : ℚ) : List ℚ → List ℚ
  | [] => [a]
  | b :: t => if a ≤ b then a :: b :: t else b :: insertRat a t

/-- Ascending sort on rationals; models Python's `sorted`. -/
def sortRat : List ℚ → List ℚ
  | [] => []
  | a :: t => insertRat a (sortRat t)

/-- Model of Python `sorted(set(l))`: the distinct values of `l` in ascending order. -/
def sortedDistinct (l : List ℚ) : List ℚ := sortRat l.dedup

/-- Parsed JSON value; the outcome of a successful `json.loads`. -/
inductive Json where
  | null : Json
  | bool (b : Bool) : Json
  | num (q : ℚ) : Json
  | str (s : String) : Json
  | arr (items : List Json) : Json
  | obj (fields : List (String × Json)) : Json

/-- One trading day of the canonical series. The engine reads only the
`high`, `low`, `close` and `volume` fields; `date` and `open` are never
accessed by any transform and are omitted. -/
structure PricePoint where
  high : ℚ
  low : ℚ
  close : ℚ
  volume : ℚ

/-- Result of one tool call: the Python dict with `"status": "success"` and a
payload, or with `"status": "failed"` and an `"error"` message. -/
inductive PyResult (α : Type) where
  | success (payload : α) : PyResult α
  | failed (error : String) : PyResult α

def PyResult.status : PyResult α → String
  | .success _ => ("success")
  | .failed _ => ("failed")

def PyResult.errorMsg : PyResult α → String
  | .success _ => ("")
  | .failed m => m

/-- The `try/except` boundary: any internal fault becomes a `failed` result. -/
def ofExcept : Except String α → PyResult α
  | .ok a => .success a
  | .error m => .failed m

/-- Sequencing of fallible steps of a tool body. -/
def bindE (e : Except String α) (f : α → Except String β) : Except String β :=
  match e with
  | .error m => .error m
  | .ok a => f a

/-- First-error-wins map; models a Python list comprehension whose body can raise. -/
def mapExc (f : α → Except String β) : List α → Except String (List β)
  | [] => .ok []
  | a :: t =>
    match f a with
    | .error m => .error m
    | .ok b =>
      match mapExc f t with
      | .error m => .error m
      | .ok bs => .ok (b :: bs)

/-- `json.loads(prices)`: `none` models an unparseable input string. -/
def parseInput (prices : Option Json) : Except String Json :=
  match prices with
  | none => .error ("Expecting value: line 1 column 1 (char 0)")
  | some j => .ok j

/-- `if isinstance(data, dict) and "data" in data: data = data["data"]`. -/
def unwrapData (j : Json) : Json :=
  match j with
  | .obj fields =>
    match fields.lookup ("data") with
    | some d => d
    | none => .obj fields
  | other => other

/-- Iterating the unwrapped value in a list comprehension that subscripts each
item: lists yield their items; an empty dict or empty string yields nothing; a
nonempty dict yields string keys (subscripting them raises a TypeError), and a
nonempty string yields characters (same fault); other values are not iterable. -/
def pyItems : Json → Except String (List Json)
  | .arr items => .ok items
  | .obj [] => .ok []
  | .obj (_ :: _) => .error ("string indices must be integers")
  | .str s => if s.length = 0 then .ok [] else .error ("string indices must be integers")
  | _ => .error ("object is not iterable")

/-- `item[key]` followed by use in arithmetic: the field must exist and be a number. -/
def getNum (item : Json) (key : String) : Except String ℚ :=
  match item with
  | .obj fields =>
    match fields.lookup key with
    | some (.num q) => .ok q
    | some _ => .error ("unsupported operand type for field " ++ key)
    | none => .error ("'" ++ key ++ "'")
  | _ => .error ("string indices must be integers")

/-- Extraction of the four numeric fields used by `analyze_price_movement`. -/
def getPoint (item : Json) : Except String PricePoint :=
  match getNum item ("high") with
  | .error m => .error m
  | .ok h =>
    match getNum item ("low") with
    | .error m => .error m
    | .ok l =>
      match getNum item ("close") with
      | .error m => .error m
      | .ok c =>
        match getNum item ("volume") with
        | .error m => .error m
        | .ok v => .ok ⟨h, l, c, v⟩

/-! ## Trend Classifier: `calculate_moving_average` -/

structure MAOut where
  current_price : ℚ
  average_price : ℚ
  trend : String

/-- Simple moving average of the most recent `window` closes. -/
def smaOf (closes : List ℚ) (window : ℕ) : ℚ := (lastN window closes).sum / window

/-- Body of `calculate_moving_average` after `closes` has been extracted.
Guards: `len(closes) < window` returns the "Not enough data points" failure;
`window = 0` models the ZeroDivisionError of `sum(...) / window`. -/
def calculate_moving_average_core (closes : List ℚ) (window : ℕ) :
    Except String MAOut :=
  if closes.length < window then .error ("Not enough data points")
  else if window = 0 then .error ("division by zero")
  else
    let moving_avgs := (List.range (closes.length - window + 1)).map
      (fun i => round2 (((closes.drop i).take window).sum / window))
    let current_price := closes.getLastD 0
    let current_ma := moving_avgs.getLastD 0
    let trend := if current_price > current_ma then ("BULLISH") else ("BEARISH")
    .ok ⟨current_price, current_ma, trend⟩

def calculate_moving_average (prices : Option Json) (window : ℕ) : PyResult MAOut :=
  ofExcept (bindE (parseInput prices) (fun j =>
    bindE (pyItems (unwrapData j)) (fun items =>
      bindE (mapExc (fun it => getNum it ("close")) items) (fun closes =>
        calculate_moving_average_core closes window))))

/-! ## Risk Classifier: `calculate_volatility` -/

structure VolOut where
  risk_level : String
  lowest : ℚ
  highest : ℚ
  current : ℚ

/-- `variance` of the source: population variance of the closes. -/
def populationVariance (closes : List ℚ) : ℚ :=
  let mean := closes.sum / closes.length
  (closes.map (fun x => (x - mean) ^ 2)).sum / closes.length

/-- Body of `calculate_volatility` after `closes` has been extracted.
Guards: an empty series models the ZeroDivisionError of `sum(closes)/len(closes)`;
a zero close among `closes[0..n-2]` models the ZeroDivisionError in the
daily-return loop (`(closes[i]-closes[i-1])/closes[i-1]`, whose result is unused).
The source computes `volatility = variance ** 0.5` and tests `volatility < 5` and
`volatility < 15`; as the square root is irrational, the embedding applies the
equivalent squared thresholds `variance < 25` and `variance < 225` (the theorems
about this function state the classification through `Real.sqrt`). -/
def calculate_volatility_core (closes : List ℚ) : Except String VolOut :=
  if closes.length = 0 then .error ("division by zero")
  else if closes.dropLast.contains 0 then .error ("float division by zero")
  else
    let variance := populationVariance closes
    let risk_level :=
      if variance < 25 then ("LOW")
      else if variance < 225 then ("MEDIUM")
      else ("HIGH")
    .ok ⟨risk_level, round2 (pyMinD closes), round2 (pyMaxD closes),
      round2 (closes.getLastD 0)⟩

def calculate_volatility (prices : Option Json) : PyResult VolOut :=
  ofExcept (bindE (parseInput prices) (fun j =>
    bindE (pyItems (unwrapData j)) (fun items =>
      bindE (mapExc (fun it => getNum it ("close")) items) (fun closes =>
        calculate_volatility_core closes))))

/-! ## Forecast Engine: `predict_trend` -/

structure PredictOut where
  current_price : ℚ
  predicted_price : ℚ
  direction : String
  change_percent : ℚ

/-- `slope` of the source: least-squares slope of close against day index
`0..n-1`, defaulting to 0 when the denominator is zero. -/
def olsSlope (closes : List ℚ) : ℚ :=
  let n := closes.length
  let x_mean : ℚ := (∑ i ∈ Finset.range n, (i : ℚ)) / n
  let y_mean : ℚ := closes.sum / n
  let numerator := ∑ i ∈ Finset.range n, ((i : ℚ) - x_mean) * (closes.getD i 0 - y_mean)
  let denominator := ∑ i ∈ Finset.range n, ((i : ℚ) - x_mean) ^ 2
  if denominator ≠ 0 then numerator / denominator else 0

/-- `intercept` of the source: `y_mean - slope * x_mean`. -/
def olsIntercept (closes : List ℚ) : ℚ :=
  closes.sum / closes.length -
    olsSlope closes * ((∑ i ∈ Finset.range closes.length, (i : ℚ)) / closes.length)

/-- The `forecast` list of the source: for `i = 1..forecast_days` the value
`slope * (n + i - 1) + intercept`, rounded to 2 decimals (the list index `j`
below corresponds to `i = j + 1`). -/
def forecastListOf (closes : List ℚ) (forecast_days : ℕ) : List ℚ :=
  (List.range forecast_days).map
    (fun j : ℕ =>
      round2 (olsSlope closes * ((closes.length : ℚ) + (j : ℚ)) + olsIntercept closes))

/-- Residual sum of squares of the affine fit `day i ↦ a * i + b`. -/
def RSS (closes : List ℚ) (a b : ℚ) : ℚ :=
  ∑ i ∈ Finset.range closes.length, (closes.getD i 0 - (a * i + b)) ^ 2

/-- Body of `predict_trend` after `closes` has been extracted.
Guards: an empty series models the ZeroDivisionError of `sum(x)/n`;
`forecast_days = 0` models the IndexError of `forecast[-1]`; a zero last close
models the ZeroDivisionError of the percent-change division. -/
def predict_trend_core (closes : List ℚ) (forecast_days : ℕ) :
    Except String PredictOut :=
  if closes.length = 0 then .error ("division by zero")
  else if forecast_days = 0 then .error ("list index out of range")
  else if closes.getLastD 0 = 0 then .error ("float division by zero")
  else
    let forecast := forecastListOf closes forecast_days
    let current_price := closes.getLastD 0
    let predicted_price := forecast.getLastD 0
    let change_percent := (predicted_price - current_price) / current_price * 100
    let direction := if olsSlope closes > 0 then ("UP") else ("DOWN")
    .ok ⟨current_price, predicted_price, direction, round2 change_percent⟩

def predict_trend (prices : Option Json) (forecast_days : ℕ) : PyResult PredictOut :=
  ofExcept (bindE (parseInput prices) (fun j =>
    bindE (pyItems (unwrapData j)) (fun items =>
      bindE (mapExc (fun it => getNum it ("close")) items) (fun closes =>
        predict_trend_core closes forecast_days))))

/-! ## Level Signal Generator: `analyze_support_resistance` -/

structure LevelsOut where
  floor_price : ℚ
  ceiling_price : ℚ
  current_price : ℚ
  signal : String

/-- `resistance_levels` of the source:
`sorted(set(highs[-10:]))[-3:] if len(highs) >= 10 else sorted(set(highs))[-3:]`. -/
def resistanceLevels (highs : List ℚ) : List ℚ :=
  if highs.length ≥ 10 then lastN 3 (sortedDistinct (lastN 10 highs))
  else lastN 3 (sortedDistinct highs)

/-- `support_levels` of the source:
`sorted(set(lows[-10:]))[:3] if len(lows) >= 10 else sorted(set(lows))[:3]`. -/
def supportLevels (lows : List ℚ) : List ℚ :=
  if lows.length ≥ 10 then (sortedDistinct (lastN 10 lows)).take 3
  else (sortedDistinct lows).take 3

/-- Body of `analyze_support_resistance` after the three lists have been
extracted. Guard: an empty series models the IndexError of `closes[-1]`. -/
def analyze_support_resistance_core (highs lows closes : List ℚ) :
    Except String LevelsOut :=
  if closes.length = 0 then .error ("list index out of range")
  else
    let resistance_levels := resistanceLevels highs
    let support_levels := supportLevels lows
    let current_price := closes.getLastD 0
    let signal :=
      if current_price < pyMinD support_levels then ("BUY")
      else if current_price > pyMaxD resistance_levels then ("SELL")
      else ("HOLD")
    .ok ⟨round2 (pyMinD support_levels), round2 (pyMaxD resistance_levels),
      round2 current_price, signal⟩

def analyze_support_resistance (prices : Option Json) : PyResult LevelsOut :=
  ofExcept (bindE (parseInput prices) (fun j =>
    bindE (pyItems (unwrapData j)) (fun items =>
      bindE (mapExc (fun it => getNum it ("high")) items) (fun highs =>
        bindE (mapExc (fun it => getNum it ("low")) items) (fun lows =>
          bindE (mapExc (fun it => getNum it ("close")) items) (fun closes =>
            analyze_support_resistance_core highs lows closes))))))

/-! ## Movement Explainer: `analyze_price_movement` -/

/-- One ranked hypothesis. The source also attaches an `explanation` sentence
and a `signals` dict of boolean flags; they are not read by any later
computation and are omitted here. -/
structure Alibi where
  rank : ℕ
  title : String
  confidence : ℤ

structure MovementOut where
  alibis : List Alibi
  period_days : ℕ
  price_change : ℚ
  price_change_pct : ℚ
  volume_spike : ℚ
  volatility_range : ℚ
  current_price : ℚ
  starting_price : ℚ

/-- `volume_spike` of the source:
`max(volumes) / avg_volume if avg_volume > 0 else 1`. -/
def volumeSpikeOf (volumes : List ℚ) : ℚ :=
  let avg_volume := volumes.sum / volumes.length
  if avg_volume > 0 then pyMaxD volumes / avg_volume else 1

/-- `price_change` of the source over the trailing window. -/
def priceChangeOf (recent : List PricePoint) : ℚ :=
  (recent.map (fun p => p.close)).getLastD 0 - (recent.map (fun p => p.close)).headD 0

/-- `price_change_pct` of the source over the trailing window. -/
def priceChangePctOf (recent : List PricePoint) : ℚ :=
  priceChangeOf recent / (recent.map (fun p => p.close)).headD 0 * 100

/-- `volatility` of the source: `max(highs) - min(lows)` over the window. -/
def volatilityRangeOf (recent : List PricePoint) : ℚ :=
  pyMaxD (recent.map (fun p => p.high)) - pyMinD (recent.map (fun p => p.low))

/-- Mean daily high-low range over the window (the comparand of alibi 2). -/
def meanDailyRangeOf (recent : List PricePoint) : ℚ :=
  (List.zipWith (fun h l => h - l) (recent.map (fun p => p.high))
    (recent.map (fun p => p.low))).sum / (recent.map (fun p => p.high)).length

/-- `spike` over the window. -/
def spikeOf (recent : List PricePoint) : ℚ :=
  volumeSpikeOf (recent.map (fun p => p.volume))

def titleBullish : String := "📈 Bullish Volume Surge"
def titlePanic : String := "📉 Panic Selling / Distribution"
def titleNews : String := "📰 News Event / Earnings"
def titleBounce : String := "🎯 Support Bounce"
def titleRejection : String := "🚫 Resistance Rejection"
def titleRange : String := "➡️ Range-bound Movement"

/-- The `alibis` list as generated (before sorting): alibi 1 if the volume
spike exceeds 1.5, alibi 2 if the window range exceeds 1.5x the mean daily
range, alibi 3 whenever the window has at least two closes. -/
def genAlibis (recent : List PricePoint) : List Alibi :=
  let closes := recent.map (fun p => p.close)
  let price_change := priceChangeOf recent
  let volume_spike := spikeOf recent
  let volatility := volatilityRangeOf recent
  (if volume_spike > 3/2 then
    [if price_change > 0 then
      (⟨1, titleBullish, min 85 (pyTrunc (volume_spike * 30))⟩ : Alibi)
    else
      (⟨1, titlePanic, min 85 (pyTrunc (volume_spike * 30))⟩ : Alibi)]
  else []) ++
  (if volatility > meanDailyRangeOf recent * (3/2) then
    [(⟨2, titleNews, 70⟩ : Alibi)]
  else []) ++
  (if 1 < closes.length then
    (let recent_low := if closes.length ≥ 3 then pyMinD (lastN 3 closes) else pyMinD closes
    let recent_high := if closes.length ≥ 3 then pyMaxD (lastN 3 closes) else pyMaxD closes
    if price_change > 0 ∧ closes.getLastD 0 > recent_low then
      [(⟨3, titleBounce, 65⟩ : Alibi)]
    else if price_change < 0 ∧ closes.getLastD 0 < recent_high then
      [(⟨3, titleRejection, 65⟩ : Alibi)]
    else
      [(⟨3, titleRange, 55⟩ : Alibi)])
  else [])

/-- Body of `analyze_price_movement` after the window of PricePoints has been
obtained. Guards: an empty window models the IndexError of `closes[-1]`; a zero
starting close models the ZeroDivisionError of the percent-change division.
(The slice `data[-days_back:]` is applied again here; it is idempotent, so the
wrapper may pass an already-sliced list.) -/
def analyze_price_movement_core (data : List PricePoint) (days_back : ℕ) :
    Except String MovementOut :=
  let recent := windowOf days_back data
  if recent.length = 0 then .error ("list index out of range")
  else if (recent.map (fun p => p.close)).headD 0 = 0 then .error ("float division by zero")
  else
    let closes := recent.map (fun p => p.close)
    .ok ⟨sortDesc Alibi.confidence (genAlibis recent), days_back,
      round2 (priceChangeOf recent), round2 (priceChangePctOf recent),
      round2 (spikeOf recent), round2 (volatilityRangeOf recent),
      round2 (closes.getLastD 0), round2 (closes.headD 0)⟩

def analyze_price_movement (prices : Option Json) (days_back : ℕ) : PyResult MovementOut :=
  ofExcept (bindE (parseInput prices) (fun j =>
    bindE (pyItems (unwrapData j)) (fun items =>
      bindE (mapExc getPoint (windowOf days_back items)) (fun pts =>
        analyze_price_movement_core pts days_back))))

/-! ## Report Assembler: `generate_report` -/

/-- The 60-character double-line border of the report banner. -/
def boxLine : String := ⟨List.replicate 60 '═'⟩

def reportPartA : String :=
  "\n╔" ++ boxLine ++ "╗\n║           STOCK MARKET ANALYSIS REPORT                     ║\n║           Symbol: "

def reportPartB : String := "                                    ║\n║           Generated: "

def reportPartC : String :=
  "                  ║\n╚" ++ boxLine ++ "╝\n\nANALYSIS SUMMARY:\n"

def reportPartD : String := "\n\nRECOMMENDATION:\nBased on the time series analysis, technical indicators, and trend\nforecasting, this report provides actionable insights for trading\ndecisions. Always consult with a financial advisor before trading.\n\nDISCLAIMER:\nThis analysis is for educational purposes only and should not be\nconsidered as financial advice. Past performance does not guarantee\nfuture results.\n"

/-- `generate_report`: an f-string over the symbol, the current wall-clock
time (`datetime.now().strftime('%Y-%m-%d %H:%M:%S')`, passed here as the
explicit argument `now`), and the analysis text. The f-string cannot raise,
so the `except` branch is dead code. -/
def generate_report (symbol : String) (analysis_data : String) (now : String) : String :=
  reportPartA ++ strUpper symbol ++ reportPartB ++ now ++ reportPartC ++
    analysis_data ++ reportPartD

/-! ## Concrete series used by the specification's scenarios -/

/-- The close series `[100, 101, ..., 109]` of the spec's concrete scenarios. -/
def demoCloses : List ℚ := [100, 101, 102, 103, 104, 105, 106, 107, 108, 109]

/-- A 5-day window with a single trailing volume spike (9,000,000 against a
5-day average of 3,000,000) and rising closes. -/
def demoMove : List PricePoint :=
  [⟨105, 95, 100, 1500000⟩, ⟨106, 96, 101, 1500000⟩, ⟨107, 97, 102, 1500000⟩,
   ⟨108, 98, 103, 1500000⟩, ⟨109, 99, 104, 9000000⟩]

/-! ## Lemmas about the stable sorts -/

theorem insertDesc_perm (key : α → ℤ) (a : α) (l : List α) :
    (insertDesc key a l).Perm (a :: l) := by
  induction l with
  | nil => simp [insertDesc]
  | cons b t ih =>
    simp only [insertDesc]
    split
    · exact List.Perm.refl _
    · exact (List.Perm.cons b ih).trans (List.Perm.swap a b t)

theorem sortDesc_perm (key : α → ℤ) (l : List α) : (sortDesc key l).Perm l := by
  induction l with
  | nil => simp [sortDesc]
  | cons a t ih =>
    exact (insertDesc_perm key a (sortDesc key t)).trans (List.Perm.cons a ih)

theorem mem_insertDesc (key : α → ℤ) (a x : α) (l : List α) :
    x ∈ insertDesc key a l ↔ x = a ∨ x ∈ l := by
  rw [(insertDesc_perm key a l).mem_iff]
  simp

theorem pairwise_key_insertDesc (key : α → ℤ) (a : α) (l : List α)
    (h : l.Pairwise (fun x y => key y ≤ key x)) :
    (insertDesc key a l).Pairwise (fun x y => key y ≤ key x) := by
  induction l with
  | nil => simp [insertDesc]
  | cons b t ih =>
    simp only [insertDesc]
    rw [List.pairwise_cons] at h
    split
    · rename_i hba
      refine List.Pairwise.cons ?_ (List.Pairwise.cons h.1 h.2)
      intro x hx
      rcases List.mem_cons.mp hx with rfl | hx
      · exact hba
      · exact le_trans (h.1 x hx) hba
    · rename_i hba
      push_neg at hba
      refine List.Pairwise.cons ?_ (ih h.2)
      intro x hx
      rcases (mem_insertDesc key a x t).mp hx with rfl | hx
      · exact le_of_lt hba
      · exact h.1 x hx

theorem sortDesc_sorted (key : α → ℤ) (l : List α) :
    (sortDesc key l).Pairwise (fun x y => key y ≤ key x) := by
  induction l with
  | nil => simp [sortDesc]
  | cons a t ih => exact pairwise_key_insertDesc key a (sortDesc key t) ih

theorem pairwise_stable_insertDesc (key : α → ℤ) (R : α → α → Prop) (a : α)
    (l : List α) (h : l.Pairwise (fun x y => key x = key y → R x y))
    (ha : ∀ b ∈ l, key a = key b → R a b) :
    (insertDesc key a l).Pairwise (fun x y => key x = key y → R x y) := by
  induction l with
  | nil => simp [insertDesc]
  | cons b t ih =>
    simp only [insertDesc]
    rw [List.pairwise_cons] at h
    split
    · refine List.Pairwise.cons ?_ (List.Pairwise.cons h.1 h.2)
      intro x hx
      exact ha x hx
    · rename_i hba
      push_neg at hba
      refine List.Pairwise.cons ?_ (ih h.2 (fun c hc => ha c (List.mem_cons_of_mem b hc)))
      intro x hx hkey
      rcases (mem_insertDesc key a x t).mp hx with rfl | hx
      · exact absurd hkey (by omega)
      · exact h.1 x hx hkey

/-- Stability of `sortDesc`: any key-compatible pairwise relation on the input
(such as "generated earlier") survives sorting between equal keys. -/
theorem sortDesc_stable (key : α → ℤ) (R : α → α → Prop) (l : List α)
    (h : l.Pairwise (fun x y => key x = key y → R x y)) :
    (sortDesc key l).Pairwise (fun x y => key x = key y → R x y) := by
  induction l with
  | nil => simp [sortDesc]
  | cons a t ih =>
    rw [List.pairwise_cons] at h
    refine pairwise_stable_insertDesc key R a (sortDesc key t) (ih h.2) ?_
    intro b hb
    exact h.1 b ((sortDesc_perm key t).mem_iff.mp hb)

theorem insertRat_perm (a : ℚ) (l : List ℚ) : (insertRat a l).Perm (a :: l) := by
  induction l with
  | nil => simp [insertRat]
  | cons b t ih =>
    simp only [insertRat]
    split
    · exact List.Perm.refl _
    · exact (List.Perm.cons b ih).trans (List.Perm.swap a b t)

theorem sortRat_perm (l : List ℚ) : (sortRat l).Perm l := by
  induction l with
  | nil => simp [sortRat]
  | cons a t ih => exact (insertRat_perm a (sortRat t)).trans (List.Perm.cons a ih)

theorem pairwise_insertRat (a : ℚ) (l : List ℚ) (h : l.Pairwise (· ≤ ·)) :
    (insertRat a l).Pairwise (· ≤ ·) := by
  induction l with
  | nil => simp [insertRat]
  | cons b t ih =>
    simp only [insertRat]
    rw [List.pairwise_cons] at h
    split
    · rename_i hab
      refine List.Pairwise.cons ?_ (List.Pairwise.cons h.1 h.2)
      intro x hx
      rcases List.mem_cons.mp hx with rfl | hx
      · exact hab
      · exact le_trans hab (h.1 x hx)
    · rename_i hab
      push_neg at hab
      refine List.Pairwise.cons ?_ (ih h.2)
      intro x hx
      rcases List.mem_cons.mp ((insertRat_perm a t).mem_iff.mp hx) with rfl | hx
      · exact le_of_lt hab
      · exact h.1 x hx

theorem sortRat_sorted (l : List ℚ) : (sortRat l).Pairwise (· ≤ ·) := by
  induction l with
  | nil => simp [sortRat]
  | cons a t ih => exact pairwise_insertRat a (sortRat t) ih

theorem sortedDistinct_perm_dedup (l : List ℚ) : (sortedDistinct l).Perm l.dedup :=
  sortRat_perm l.dedup

theorem mem_sortedDistinct (l : List ℚ) (x : ℚ) : x ∈ sortedDistinct l ↔ x ∈ l := by
  rw [(sortedDistinct_perm_dedup l).mem_iff, List.mem_dedup]

theorem sortedDistinct_nodup (l : List ℚ) : (sortedDistinct l).Nodup :=
  (List.nodup_dedup l).perm (sortedDistinct_perm_dedup l).symm

theorem sortedDistinct_strict (l : List ℚ) : (sortedDistinct l).Pairwise (· < ·) := by
  have h1 := sortRat_sorted l.dedup
  have h2 := sortedDistinct_nodup l
  exact (h1.and h2).imp (fun h => lt_of_le_of_ne h.1 h.2)

/-! ## List helpers -/

theorem getLastD_range_map (f : ℕ → α) (k : ℕ) (d : α) (hk : k ≠ 0) :
    ((List.range k).map f).getLastD d = f (k - 1) := by
  obtain ⟨m, rfl⟩ : ∃ m, k = m + 1 := ⟨k - 1, by omega⟩
  rw [List.range_succ, List.map_append]
  simp

theorem take_window_drop (l : List α) (w : ℕ) (h : w ≤ l.length) :
    (l.drop (l.length - w)).take w = l.drop (l.length - w) := by
  apply List.take_of_length_le
  rw [List.length_drop]
  omega

theorem getLastD_eq_getD (l : List α) (d : α) :
    l.getLastD d = l.getD (l.length - 1) d := by
  rw [List.getLastD_eq_getLast?, List.getLast?_eq_getElem?, List.getD_eq_getElem?_getD]

/-! ## Arithmetic lemmas for the least-squares fit -/

theorem sum_range_cast_q (n : ℕ) :
    (∑ i ∈ Finset.range n, (i : ℚ)) = n * (n - 1) / 2 := by
  induction n with
  | zero => simp
  | succ m ih =>
    rw [Finset.sum_range_succ, ih]
    push_cast
    ring

theorem sum_shift_mul (x y : ℕ → ℚ) (n : ℕ) (hn : (n : ℚ) ≠ 0) :
    (∑ i ∈ Finset.range n,
        (x i - (∑ j ∈ Finset.range n, x j) / n) * (y i - (∑ j ∈ Finset.range n, y j) / n)) =
      (∑ i ∈ Finset.range n, x i * y i) -
        (∑ i ∈ Finset.range n, x i) * (∑ i ∈ Finset.range n, y i) / n := by
  have e : ∀ i ∈ Finset.range n,
      (x i - (∑ j ∈ Finset.range n, x j) / n) * (y i - (∑ j ∈ Finset.range n, y j) / n) =
        x i * y i - x i * ((∑ j ∈ Finset.range n, y j) / n) -
          ((∑ j ∈ Finset.range n, x j) / n) * y i +
          ((∑ j ∈ Finset.range n, x j) / n) * ((∑ j ∈ Finset.range n, y j) / n) := by
    intro i _
    ring
  rw [Finset.sum_congr rfl e, Finset.sum_add_distrib, Finset.sum_sub_distrib,
    Finset.sum_sub_distrib, ← Finset.sum_mul, ← Finset.mul_sum, Finset.sum_const,
    Finset.card_range, nsmul_eq_mul]
  field_simp
  ring

theorem sum_sub_mul_sub (f g : ℕ → ℚ) (n : ℕ) :
    (∑ i ∈ Finset.range n, ∑ j ∈ Finset.range n, (f i - f j) * (g i - g j)) =
      2 * n * (∑ i ∈ Finset.range n, f i * g i) -
        2 * (∑ i ∈ Finset.range n, f i) * (∑ i ∈ Finset.range n, g i) := by
  have h1 : ∀ i, (∑ j ∈ Finset.range n, (f i - f j) * (g i - g j)) =
      (n : ℚ) * (f i * g i) - f i * (∑ j ∈ Finset.range n, g j) -
        (∑ j ∈ Finset.range n, f j) * g i + (∑ j ∈ Finset.range n, f j * g j) := by
    intro i
    have e : ∀ j ∈ Finset.range n, (f i - f j) * (g i - g j) =
        f i * g i - f i * g j - f j * g i + f j * g j := by
      intro j _
      ring
    rw [Finset.sum_congr rfl e]
    simp only [Finset.sum_add_distrib, Finset.sum_sub_distrib, ← Finset.mul_sum,
      ← Finset.sum_mul, Finset.sum_const, Finset.card_range, nsmul_eq_mul]
    ring
  rw [Finset.sum_congr rfl (fun i _ => h1 i)]
  simp only [Finset.sum_add_distrib, Finset.sum_sub_distrib, ← Finset.mul_sum,
    ← Finset.sum_mul, Finset.sum_const, Finset.card_range, nsmul_eq_mul]
  ring

theorem sub_mul_sub_nonneg (y : ℕ → ℚ) (n : ℕ)
    (hy : ∀ i j, i < n → j < n → i < j → y i < y j) (i j : ℕ)
    (hi : i < n) (hj : j < n) : 0 ≤ ((i : ℚ) - (j : ℚ)) * (y i - y j) := by
  rcases lt_trichotomy i j with h | h | h
  · have h1 : (i : ℚ) - j < 0 := by
      have : (i : ℚ) < j := by exact_mod_cast h
      linarith
    have h2 : y i - y j < 0 := by
      have := hy i j hi hj h
      linarith
    exact le_of_lt (mul_pos_of_neg_of_neg h1 h2)
  · subst h
    simp
  · have h1 : (0 : ℚ) < (i : ℚ) - j := by
      have : (j : ℚ) < i := by exact_mod_cast h
      linarith
    have h2 : 0 < y i - y j := by
      have := hy j i hj hi h
      linarith
    exact le_of_lt (mul_pos h1 h2)

theorem cov_double_pos (y : ℕ → ℚ) (n : ℕ) (hn : 2 ≤ n)
    (hy : ∀ i j, i < n → j < n → i < j → y i < y j) :
    0 < ∑ i ∈ Finset.range n, ∑ j ∈ Finset.range n, ((i : ℚ) - (j : ℚ)) * (y i - y j) := by
  apply Finset.sum_pos'
  · intro i hi
    exact Finset.sum_nonneg (fun j hj =>
      sub_mul_sub_nonneg y n hy i j (Finset.mem_range.mp hi) (Finset.mem_range.mp hj))
  · refine ⟨1, Finset.mem_range.mpr (by omega), ?_⟩
    apply Finset.sum_pos'
    · intro j hj
      exact sub_mul_sub_nonneg y n hy 1 j (by omega) (Finset.mem_range.mp hj)
    · refine ⟨0, Finset.mem_range.mpr (by omega), ?_⟩
      have h2 : 0 < y 1 - y 0 := by
        have := hy 0 1 (by omega) (by omega) (by omega)
        linarith
      have : ((1 : ℕ) : ℚ) - ((0 : ℕ) : ℚ) = 1 := by norm_num
      rw [this]
      linarith

theorem sum_eq_sum_getD (l : List ℚ) :
    l.sum = ∑ i ∈ Finset.range l.length, l.getD i 0 := by
  induction l with
  | nil => simp
  | cons a t ih =>
    rw [List.sum_cons, List.length_cons, Finset.sum_range_succ']
    simp [ih]
    ring

/-! ## Properties of the least-squares fit -/

theorem ols_den_pos (n : ℕ) (hn : 2 ≤ n) :
    0 < ∑ i ∈ Finset.range n, ((i : ℚ) - (∑ j ∈ Finset.range n, (j : ℚ)) / n) ^ 2 := by
  have hn0 : (n : ℚ) ≠ 0 := by
    have : (0 : ℚ) < n := by exact_mod_cast Nat.lt_of_lt_of_le (by omega) hn
    linarith
  have hx : (∑ j ∈ Finset.range n, (j : ℚ)) / n = ((n : ℚ) - 1) / 2 := by
    rw [sum_range_cast_q]
    field_simp
    ring
  apply Finset.sum_pos'
  · intro i _
    positivity
  · refine ⟨0, Finset.mem_range.mpr (by omega), ?_⟩
    rw [hx]
    have h1 : (0 : ℚ) < ((n : ℚ) - 1) / 2 := by
      have : (2 : ℚ) ≤ n := by exact_mod_cast hn
      linarith
    have : (((0 : ℕ) : ℚ) - ((n : ℚ) - 1) / 2) ^ 2 = (((n : ℚ) - 1) / 2) ^ 2 := by
      push_cast
      ring
    rw [this]
    positivity

theorem ols_num_pos (y : ℕ → ℚ) (n : ℕ) (hn : 2 ≤ n)
    (hy : ∀ i j, i < n → j < n → i < j → y i < y j) :
    0 < ∑ i ∈ Finset.range n,
        ((i : ℚ) - (∑ j ∈ Finset.range n, (j : ℚ)) / n) *
          (y i - (∑ j ∈ Finset.range n, y j) / n) := by
  have hn0 : (n : ℚ) ≠ 0 := by
    have : (0 : ℚ) < n := by exact_mod_cast Nat.lt_of_lt_of_le (by omega) hn
    linarith
  have hnpos : (0 : ℚ) < n := by exact_mod_cast Nat.lt_of_lt_of_le (by omega) hn
  rw [sum_shift_mul (fun i => (i : ℚ)) y n hn0]
  have hApos := cov_double_pos y n hn hy
  rw [sum_sub_mul_sub (fun i => (i : ℚ)) y n] at hApos
  have hrw : (∑ i ∈ Finset.range n, (i : ℚ) * y i) -
      (∑ i ∈ Finset.range n, (i : ℚ)) * (∑ i ∈ Finset.range n, y i) / n =
      (2 * n * (∑ i ∈ Finset.range n, (i : ℚ) * y i) -
        2 * (∑ i ∈ Finset.range n, (i : ℚ)) * (∑ i ∈ Finset.range n, y i)) / (2 * n) := by
    field_simp
    ring
  rw [hrw]
  exact div_pos hApos (by linarith)

theorem olsSlope_pos (closes : List ℚ) (h2 : 2 ≤ closes.length)
    (hmono : closes.Pairwise (· < ·)) : 0 < olsSlope closes := by
  have hy : ∀ i j, i < closes.length → j < closes.length → i < j →
      closes.getD i 0 < closes.getD j 0 := by
    intro i j hi hj hij
    have hp := List.pairwise_iff_get.mp hmono ⟨i, hi⟩ ⟨j, hj⟩ (Fin.mk_lt_mk.mpr hij)
    rw [List.getD_eq_getElem closes 0 hi, List.getD_eq_getElem closes 0 hj]
    simpa [List.get_eq_getElem] using hp
  have hden := ols_den_pos closes.length h2
  have hnum := ols_num_pos (fun i => closes.getD i 0) closes.length h2 hy
  simp only at hnum
  rw [← sum_eq_sum_getD closes] at hnum
  simp only [olsSlope]
  rw [if_pos (ne_of_gt hden)]
  exact div_pos hnum hden

theorem olsSlope_len_one (closes : List ℚ) (h1 : closes.length = 1) :
    olsSlope closes = 0 := by
  simp only [olsSlope, h1]
  norm_num [Finset.sum_range_one]

theorem ols_residual_sum (closes : List ℚ) (hne : closes ≠ []) :
    (∑ i ∈ Finset.range closes.length,
      (closes.getD i 0 - (olsSlope closes * i + olsIntercept closes))) = 0 := by
  have hn0 : (closes.length : ℚ) ≠ 0 :=
    Nat.cast_ne_zero.mpr (List.length_pos.mpr hne).ne'
  simp only [olsIntercept]
  simp only [Finset.sum_sub_distrib, Finset.sum_add_distrib, ← Finset.mul_sum,
    Finset.sum_const, Finset.card_range, nsmul_eq_mul]
  rw [← sum_eq_sum_getD closes]
  field_simp

theorem ols_residual_x_sum (closes : List ℚ) (hne : closes ≠ []) :
    (∑ i ∈ Finset.range closes.length,
      (i : ℚ) * (closes.getD i 0 - (olsSlope closes * i + olsIntercept closes))) = 0 := by
  have hn0 : (closes.length : ℚ) ≠ 0 :=
    Nat.cast_ne_zero.mpr (List.length_pos.mpr hne).ne'
  have hexp : (∑ i ∈ Finset.range closes.length,
      (i : ℚ) * (closes.getD i 0 - (olsSlope closes * i + olsIntercept closes))) =
      (∑ i ∈ Finset.range closes.length, (i : ℚ) * closes.getD i 0) -
        olsSlope closes * (∑ i ∈ Finset.range closes.length, (i : ℚ) * (i : ℚ)) -
        olsIntercept closes * (∑ i ∈ Finset.range closes.length, (i : ℚ)) := by
    have e : ∀ i ∈ Finset.range closes.length,
        (i : ℚ) * (closes.getD i 0 - (olsSlope closes * i + olsIntercept closes)) =
          (i : ℚ) * closes.getD i 0 - olsSlope closes * ((i : ℚ) * (i : ℚ)) -
            olsIntercept closes * (i : ℚ) := by
      intro i _
      ring
    rw [Finset.sum_congr rfl e]
    simp only [Finset.sum_sub_distrib, ← Finset.mul_sum]
  rw [hexp]
  by_cases hden : (∑ i ∈ Finset.range closes.length,
      ((i : ℚ) - (∑ j ∈ Finset.range closes.length, (j : ℚ)) / closes.length) ^ 2) = 0
  · have hn1 : closes.length = 1 := by
      rcases Nat.lt_or_ge closes.length 2 with h | h
      · have : closes.length ≠ 0 := by simpa using hne
        omega
      · exact absurd hden (ne_of_gt (ols_den_pos closes.length h))
    rw [olsSlope_len_one closes hn1, hn1]
    simp [Finset.sum_range_one, olsIntercept, hn1]
  · have hden_eq : (∑ i ∈ Finset.range closes.length,
        ((i : ℚ) - (∑ j ∈ Finset.range closes.length, (j : ℚ)) / closes.length) ^ 2) =
        (∑ i ∈ Finset.range closes.length, (i : ℚ) * (i : ℚ)) -
          (∑ i ∈ Finset.range closes.length, (i : ℚ)) *
            (∑ i ∈ Finset.range closes.length, (i : ℚ)) / closes.length := by
      have e : ∀ i ∈ Finset.range closes.length,
          ((i : ℚ) - (∑ j ∈ Finset.range closes.length, (j : ℚ)) / closes.length) ^ 2 =
          ((i : ℚ) - (∑ j ∈ Finset.range closes.length, (j : ℚ)) / closes.length) *
            ((i : ℚ) - (∑ j ∈ Finset.range closes.length, (j : ℚ)) / closes.length) := by
        intro i _
        ring
      rw [Finset.sum_congr rfl e, sum_shift_mul (fun i => (i : ℚ)) (fun i => (i : ℚ))
        closes.length hn0]
    have hnum_eq := sum_shift_mul (fun i => (i : ℚ)) (fun i => closes.getD i 0)
      closes.length hn0
    simp only at hnum_eq
    rw [← sum_eq_sum_getD closes] at hnum_eq
    have hslope : olsSlope closes =
        ((∑ i ∈ Finset.range closes.length, (i : ℚ) * closes.getD i 0) -
          (∑ i ∈ Finset.range closes.length, (i : ℚ)) * closes.sum / closes.length) /
        ((∑ i ∈ Finset.range closes.length, (i : ℚ) * (i : ℚ)) -
          (∑ i ∈ Finset.range closes.length, (i : ℚ)) *
            (∑ i ∈ Finset.range closes.length, (i : ℚ)) / closes.length) := by
      simp only [olsSlope]
      rw [if_pos hden, hnum_eq, hden_eq]
    have hden' : (∑ i ∈ Finset.range closes.length, (i : ℚ) * (i : ℚ)) -
        (∑ i ∈ Finset.range closes.length, (i : ℚ)) *
          (∑ i ∈ Finset.range closes.length, (i : ℚ)) / closes.length ≠ 0 := by
      rw [← hden_eq]
      exact hden
    have hden2 : (∑ i ∈ Finset.range closes.length, (i : ℚ) * (i : ℚ)) * closes.length -
        (∑ i ∈ Finset.range closes.length, (i : ℚ)) *
          (∑ i ∈ Finset.range closes.length, (i : ℚ)) ≠ 0 := by
      intro h0
      apply hden'
      field_simp
      linarith [h0]
    simp only [olsIntercept]
    rw [hslope]
    field_simp [hden2]
    ring

theorem rss_optimal (closes : List ℚ) (hne : closes ≠ []) (a b : ℚ) :
    RSS closes (olsSlope closes) (olsIntercept closes) ≤ RSS closes a b := by
  have key : RSS closes a b = RSS closes (olsSlope closes) (olsIntercept closes) +
      (∑ i ∈ Finset.range closes.length,
        ((olsSlope closes - a) * i + (olsIntercept closes - b)) ^ 2) +
      (2 * (olsSlope closes - a) * (∑ i ∈ Finset.range closes.length,
        (i : ℚ) * (closes.getD i 0 - (olsSlope closes * i + olsIntercept closes))) +
       2 * (olsIntercept closes - b) * (∑ i ∈ Finset.range closes.length,
        (closes.getD i 0 - (olsSlope closes * i + olsIntercept closes)))) := by
    simp only [RSS]
    have e : ∀ i ∈ Finset.range closes.length,
        (closes.getD i 0 - (a * i + b)) ^ 2 =
          (closes.getD i 0 - (olsSlope closes * i + olsIntercept closes)) ^ 2 +
          ((olsSlope closes - a) * i + (olsIntercept closes - b)) ^ 2 +
          (2 * (olsSlope closes - a) *
            ((i : ℚ) * (closes.getD i 0 - (olsSlope closes * i + olsIntercept closes))) +
           2 * (olsIntercept closes - b) *
            (closes.getD i 0 - (olsSlope closes * i + olsIntercept closes))) := by
      intro i _
      ring
    rw [Finset.sum_congr rfl e]
    simp only [Finset.sum_add_distrib, ← Finset.mul_sum]
  rw [key, ols_residual_sum closes hne, ols_residual_x_sum closes hne]
  have hsq : 0 ≤ ∑ i ∈ Finset.range closes.length,
      ((olsSlope closes - a) * i + (olsIntercept closes - b)) ^ 2 :=
    Finset.sum_nonneg (fun i _ => sq_nonneg _)
  linarith

theorem forecastListOf_getD (closes : List ℚ) (fd i : ℕ) (h1 : 1 ≤ i) (h2 : i ≤ fd) :
    (forecastListOf closes fd).getD (i - 1) 0 =
      round2 (olsSlope closes * ((closes.length : ℚ) + i - 1) + olsIntercept closes) := by
  have hlt : i - 1 < ((List.range fd).map (fun j : ℕ =>
      round2 (olsSlope closes * ((closes.length : ℚ) + (j : ℚ)) +
        olsIntercept closes))).length := by
    rw [List.length_map, List.length_range]
    omega
  simp only [forecastListOf]
  rw [List.getD_eq_getElem _ _ hlt, List.getElem_map, List.getElem_range]
  congr 1
  push_cast [Nat.cast_sub h1]
  ring

/-! ## Error propagation helpers -/

theorem append_ne_empty (s t : String) (hs : s.length ≠ 0) : s ++ t ≠ "" := by
  intro h
  have h2 := congrArg String.length h
  rw [String.length_append] at h2
  simp only [String.length_empty] at h2
  omega

theorem getNum_error_ne_empty (item : Json) (key m : String)
    (h : getNum item key = .error m) : m ≠ "" := by
  cases item with
  | obj fields =>
    simp only [getNum] at h
    cases hf : fields.lookup key with
    | none =>
      rw [hf] at h
      injection h with hm
      subst hm
      rw [String.append_assoc]
      exact append_ne_empty _ _ (by decide)
    | some v =>
      rw [hf] at h
      cases v with
      | num q => simp at h
      | null => injection h with hm; subst hm; exact append_ne_empty _ _ (by decide)
      | bool b => injection h with hm; subst hm; exact append_ne_empty _ _ (by decide)
      | str s => injection h with hm; subst hm; exact append_ne_empty _ _ (by decide)
      | arr l => injection h with hm; subst hm; exact append_ne_empty _ _ (by decide)
      | obj l => injection h with hm; subst hm; exact append_ne_empty _ _ (by decide)
  | null => injection h with hm; subst hm; decide
  | bool b => injection h with hm; subst hm; decide
  | num q => injection h with hm; subst hm; decide
  | str s => injection h with hm; subst hm; decide
  | arr l => injection h with hm; subst hm; decide

theorem parseInput_error_ne_empty (p : Option Json) (m : String)
    (h : parseInput p = .error m) : m ≠ "" := by
  cases p with
  | none => injection h with hm; subst hm; decide
  | some j => simp [parseInput] at h

theorem pyItems_error_ne_empty (j : Json) (m : String)
    (h : pyItems j = .error m) : m ≠ "" := by
  cases j with
  | arr items => simp [pyItems] at h
  | obj fields =>
    cases fields with
    | nil => simp [pyItems] at h
    | cons f t => injection h with hm; subst hm; decide
  | str s =>
    simp only [pyItems] at h
    split_ifs at h
    injection h with hm
    subst hm
    decide
  | null => injection h with hm; subst hm; decide
  | bool b => injection h with hm; subst hm; decide
  | num q => injection h with hm; subst hm; decide

theorem getPoint_error_ne_empty (item : Json) (m : String)
    (h : getPoint item = .error m) : m ≠ "" := by
  simp only [getPoint] at h
  cases hh : getNum item ("high") with
  | error m1 =>
    rw [hh] at h
    injection h with hm
    subst hm
    exact getNum_error_ne_empty item _ _ hh
  | ok a =>
    rw [hh] at h
    cases hl : getNum item ("low") with
    | error m1 =>
      rw [hl] at h
      injection h with hm
      subst hm
      exact getNum_error_ne_empty item _ _ hl
    | ok b =>
      rw [hl] at h
      cases hc : getNum item ("close") with
      | error m1 =>
        rw [hc] at h
        injection h with hm
        subst hm
        exact getNum_error_ne_empty item _ _ hc
      | ok c =>
        rw [hc] at h
        cases hv : getNum item ("volume") with
        | error m1 =>
          rw [hv] at h
          injection h with hm
          subst hm
          exact getNum_error_ne_empty item _ _ hv
        | ok d => rw [hv] at h; simp at h

theorem mapExc_error_ne_empty {α β : Type} (f : α → Except String β)
    (hf : ∀ a m, f a = .error m → m ≠ "") (l : List α) (m : String)
    (h : mapExc f l = .error m) : m ≠ "" := by
  induction l with
  | nil => simp [mapExc] at h
  | cons a t ih =>
    simp only [mapExc] at h
    cases hfa : f a with
    | error m1 =>
      rw [hfa] at h
      injection h with hm
      subst hm
      exact hf a _ hfa
    | ok b =>
      rw [hfa] at h
      cases hmt : mapExc f t with
      | error m1 =>
        rw [hmt] at h
        injection h with hm
        subst hm
        exact ih hmt
      | ok bs => rw [hmt] at h; simp at h

theorem bindE_error_ne_empty {α β : Type} (e : Except String α)
    (f : α → Except String β) (he : ∀ m, e = .error m → m ≠ "")
    (hf : ∀ a m, f a = .error m → m ≠ "") (m : String)
    (h : bindE e f = .error m) : m ≠ "" := by
  cases he' : e with
  | error m1 =>
    rw [he', bindE] at h
    injection h with hm
    subst hm
    exact he _ he'
  | ok a =>
    rw [he', bindE] at h
    exact hf a m h

theorem ma_core_error_ne_empty (closes : List ℚ) (w : ℕ) (m : String)
    (h : calculate_moving_average_core closes w = .error m) : m ≠ "" := by
  simp only [calculate_moving_average_core] at h
  split_ifs at h
  · injection h with hm; subst hm; decide
  · injection h with hm; subst hm; decide

theorem vol_core_error_ne_empty (closes : List ℚ) (m : String)
    (h : calculate_volatility_core closes = .error m) : m ≠ "" := by
  simp only [calculate_volatility_core] at h
  split_ifs at h
  · injection h with hm; subst hm; decide
  · injection h with hm; subst hm; decide

theorem predict_core_error_ne_empty (closes : List ℚ) (fd : ℕ) (m : String)
    (h : predict_trend_core closes fd = .error m) : m ≠ "" := by
  simp only [predict_trend_core] at h
  split_ifs at h
  · injection h with hm; subst hm; decide
  · injection h with hm; subst hm; decide
  · injection h with hm; subst hm; decide

theorem levels_core_error_ne_empty (highs lows closes : List ℚ) (m : String)
    (h : analyze_support_resistance_core highs lows closes = .error m) : m ≠ "" := by
  simp only [analyze_support_resistance_core] at h
  split_ifs at h
  · injection h with hm; subst hm; decide

theorem movement_core_error_ne_empty (data : List PricePoint) (db : ℕ) (m : String)
    (h : analyze_price_movement_core data db = .error m) : m ≠ "" := by
  simp only [analyze_price_movement_core] at h
  split_ifs at h
  · injection h with hm; subst hm; decide
  · injection h with hm; subst hm; decide

theorem status_of_ofExcept {α : Type} (e : Except String α)
    (he : ∀ m, e = .error m → m ≠ "") :
    (ofExcept e).status = ("success") ∨
      ((ofExcept e).status = ("failed") ∧ (ofExcept e).errorMsg ≠ ("")) := by
  cases h : e with
  | ok a => left; simp [ofExcept, PyResult.status]
  | error m =>
    right
    refine ⟨by simp [ofExcept, PyResult.status], ?_⟩
    simpa [ofExcept, PyResult.errorMsg] using he m h

theorem windowOf_nil (db : ℕ) : windowOf db ([] : List α) = [] := by
  simp [windowOf]

/-! ## Claim C1 -/

set_option maxRecDepth 100000 in
/-- C1 counterexample: `generate_report` called twice with the same symbol and
analysis text but at two different clock times produces different report text,
because the header interpolates the generation timestamp. -/
theorem C1_counterexample :
    generate_report ("aapl") ("summary") ("2024-01-01 00:00:00") ≠
      generate_report ("aapl") ("summary") ("2024-01-01 00:00:01") := by
  decide

/-- C1 (amended): every engine component is deterministic as a function of its
full inputs; `generate_report` is byte-identical across calls only when the
generation timestamp is also equal, and the static header text before the
symbol and the recommendation/disclaimer footer are byte-for-byte fixed in
every report. -/
theorem C1_determinism (s d t₁ t₂ : String) :
    (t₁ = t₂ → generate_report s d t₁ = generate_report s d t₂) ∧
    (∃ rest, generate_report s d t₁ = reportPartA ++ rest) ∧
    (∃ pre, generate_report s d t₁ = pre ++ reportPartD) ∧
    (∀ (p : Option Json) (w : ℕ),
      calculate_moving_average p w = calculate_moving_average p w) ∧
    (∀ (p : Option Json), calculate_volatility p = calculate_volatility p) ∧
    (∀ (p : Option Json) (fd : ℕ), predict_trend p fd = predict_trend p fd) ∧
    (∀ (p : Option Json), analyze_support_resistance p = analyze_support_resistance p) ∧
    (∀ (p : Option Json) (db : ℕ),
      analyze_price_movement p db = analyze_price_movement p db) := by
  refine ⟨fun h => by rw [h], ?_, ?_, fun p w => rfl, fun p => rfl, fun p fd => rfl,
    fun p => rfl, fun p db => rfl⟩
  · refine ⟨strUpper s ++ (reportPartB ++ (t₁ ++ (reportPartC ++ (d ++ reportPartD)))), ?_⟩
    simp [generate_report, String.append_assoc]
  · exact ⟨reportPartA ++ strUpper s ++ reportPartB ++ t₁ ++ reportPartC ++ d, rfl⟩

/-- C1 witness: the amended determinism applied at concrete inputs. -/
theorem C1_determinism_witness :
    generate_report ("aapl") ("summary") ("2024-01-01 00:00:00") =
      generate_report ("aapl") ("summary") ("2024-01-01 00:00:00") :=
  (C1_determinism ("aapl") ("summary") ("2024-01-01 00:00:00")
    ("2024-01-01 00:00:00")).1 rfl

/-! ## Claim C4 -/

/-- C4: no transform lets a fault escape: for every parse outcome and every
parameter, each of the five transforms returns a result whose status is either
`success` or `failed`, and in the `failed` case the error message is a nonempty
human-readable string; in particular an unparseable input, a type-mismatched
record and an empty series all produce `failed` (shown at the source's default
parameters). -/
theorem C4_no_fault_escapes (p : Option Json) (w fd db : ℕ) :
    ((calculate_moving_average p w).status = ("success") ∨
      ((calculate_moving_average p w).status = ("failed") ∧
        (calculate_moving_average p w).errorMsg ≠ (""))) ∧
    ((calculate_volatility p).status = ("success") ∨
      ((calculate_volatility p).status = ("failed") ∧
        (calculate_volatility p).errorMsg ≠ (""))) ∧
    ((predict_trend p fd).status = ("success") ∨
      ((predict_trend p fd).status = ("failed") ∧
        (predict_trend p fd).errorMsg ≠ (""))) ∧
    ((analyze_support_resistance p).status = ("success") ∨
      ((analyze_support_resistance p).status = ("failed") ∧
        (analyze_support_resistance p).errorMsg ≠ (""))) ∧
    ((analyze_price_movement p db).status = ("success") ∨
      ((analyze_price_movement p db).status = ("failed") ∧
        (analyze_price_movement p db).errorMsg ≠ (""))) ∧
    (calculate_moving_average none 7).status = ("failed") ∧
    (calculate_volatility none).status = ("failed") ∧
    (predict_trend none 5).status = ("failed") ∧
    (analyze_support_resistance none).status = ("failed") ∧
    (analyze_price_movement none 5).status = ("failed") ∧
    (calculate_moving_average (some (Json.num 3)) 7).status = ("failed") ∧
    (calculate_volatility (some (Json.arr [Json.str ("oops")]))).status = ("failed") ∧
    (predict_trend (some (Json.arr [Json.obj [(("close"), Json.str ("x"))]])) 5).status =
      ("failed") ∧
    (analyze_support_resistance (some (Json.num 3))).status = ("failed") ∧
    (analyze_price_movement (some (Json.bool true)) 5).status = ("failed") ∧
    (calculate_moving_average (some (Json.arr [])) 7).status = ("failed") ∧
    (calculate_volatility (some (Json.arr []))).status = ("failed") ∧
    (predict_trend (some (Json.arr [])) 5).status = ("failed") ∧
    (analyze_support_resistance (some (Json.arr []))).status = ("failed") ∧
    (analyze_price_movement (some (Json.arr [])) 5).status = ("failed") := by
  have hclose : ∀ (it : Json) (m : String), getNum it ("close") = .error m → m ≠ "" :=
    fun it m h => getNum_error_ne_empty it _ m h
  have hhigh : ∀ (it : Json) (m : String), getNum it ("high") = .error m → m ≠ "" :=
    fun it m h => getNum_error_ne_empty it _ m h
  have hlow : ∀ (it : Json) (m : String), getNum it ("low") = .error m → m ≠ "" :=
    fun it m h => getNum_error_ne_empty it _ m h
  refine ⟨?_, ?_, ?_, ?_, ?_, rfl, rfl, rfl, rfl, rfl, rfl, rfl, rfl, rfl, rfl,
    rfl, rfl, rfl, rfl, rfl⟩
  · apply status_of_ofExcept
    intro m h
    refine bindE_error_ne_empty _ _ (parseInput_error_ne_empty p) ?_ m h
    intro j m h
    refine bindE_error_ne_empty _ _ (pyItems_error_ne_empty _) ?_ m h
    intro items m h
    refine bindE_error_ne_empty _ _ (mapExc_error_ne_empty _ hclose items) ?_ m h
    intro closes m h
    exact ma_core_error_ne_empty closes w m h
  · apply status_of_ofExcept
    intro m h
    refine bindE_error_ne_empty _ _ (parseInput_error_ne_empty p) ?_ m h
    intro j m h
    refine bindE_error_ne_empty _ _ (pyItems_error_ne_empty _) ?_ m h
    intro items m h
    refine bindE_error_ne_empty _ _ (mapExc_error_ne_empty _ hclose items) ?_ m h
    intro closes m h
    exact vol_core_error_ne_empty closes m h
  · apply status_of_ofExcept
    intro m h
    refine bindE_error_ne_empty _ _ (parseInput_error_ne_empty p) ?_ m h
    intro j m h
    refine bindE_error_ne_empty _ _ (pyItems_error_ne_empty _) ?_ m h
    intro items m h
    refine bindE_error_ne_empty _ _ (mapExc_error_ne_empty _ hclose items) ?_ m h
    intro closes m h
    exact predict_core_error_ne_empty closes fd m h
  · apply status_of_ofExcept
    intro m h
    refine bindE_error_ne_empty _ _ (parseInput_error_ne_empty p) ?_ m h
    intro j m h
    refine bindE_error_ne_empty _ _ (pyItems_error_ne_empty _) ?_ m h
    intro items m h
    refine bindE_error_ne_empty _ _ (mapExc_error_ne_empty _ hhigh items) ?_ m h
    intro highs m h
    refine bindE_error_ne_empty _ _ (mapExc_error_ne_empty _ hlow items) ?_ m h
    intro lows m h
    refine bindE_error_ne_empty _ _ (mapExc_error_ne_empty _ hclose items) ?_ m h
    intro closes m h
    exact levels_core_error_ne_empty highs lows closes m h
  · apply status_of_ofExcept
    intro m h
    refine bindE_error_ne_empty _ _ (parseInput_error_ne_empty p) ?_ m h
    intro j m h
    refine bindE_error_ne_empty _ _ (pyItems_error_ne_empty _) ?_ m h
    intro items m h
    refine bindE_error_ne_empty _ _
      (mapExc_error_ne_empty _ (fun it m h => getPoint_error_ne_empty it m h) _) ?_ m h
    intro pts m h
    exact movement_core_error_ne_empty pts db m h

theorem getLastD_mem (l : List α) (d : α) (h : l ≠ []) : l.getLastD d ∈ l := by
  induction l generalizing d with
  | nil => simp at h
  | cons a t ih =>
    rw [List.getLastD_cons]
    cases t with
    | nil => simp
    | cons b u => exact List.mem_cons_of_mem a (ih a (by simp))

theorem ma_core_ok (closes : List ℚ) (w : ℕ) (hw : 1 ≤ w) (hlen : w ≤ closes.length) :
    calculate_moving_average_core closes w =
      .ok ⟨closes.getLastD 0, round2 (smaOf closes w),
        if closes.getLastD 0 > round2 (smaOf closes w) then ("BULLISH")
        else ("BEARISH")⟩ := by
  have hma : ((List.range (closes.length - w + 1)).map
      (fun i => round2 (((closes.drop i).take w).sum / w))).getLastD 0 =
      round2 (smaOf closes w) := by
    rw [getLastD_range_map _ _ _ (by omega)]
    have he : closes.length - w + 1 - 1 = closes.length - w := by omega
    rw [he, take_window_drop closes w hlen]
    rfl
  simp only [calculate_moving_average_core]
  rw [if_neg (by omega), if_neg (by omega), hma]

/-! ## Claim C5 -/

/-- C5 counterexample: with the single close `0.001` and `window = 1` the
moving average is `0.001`, yet the code compares against the average rounded
to 2 decimals (`0.0`) and reports BULLISH, while the claim's comparison
`latest close > moving average` is false (they are equal, so it demands
BEARISH). -/
theorem C5_counterexample :
    ∃ r, calculate_moving_average_core [1/1000] 1 = .ok r ∧
      r.trend = ("BULLISH") ∧ ¬ ((1/1000 : ℚ) > smaOf [1/1000] 1) := by
  have h := ma_core_ok [1/1000] 1 (by norm_num) (by norm_num)
  have hsma : smaOf [1/1000] 1 = 1/1000 := by
    norm_num [smaOf, lastN]
  have hr2 : round2 (smaOf [1/1000] 1) = 0 := by
    rw [hsma]
    norm_num [round2, roundHalfEven]
  rw [hr2] at h
  refine ⟨_, h, ?_, by rw [hsma]; norm_num⟩
  norm_num

/-- C5 (amended): for `window ≥ 1`, `calculate_moving_average` fails with
"Not enough data points" when the series is shorter than the window; otherwise
it succeeds, reports the latest close and the simple moving average of the most
recent `window` closes rounded to 2 decimals, and classifies BULLISH exactly
when the latest close is strictly greater than that rounded average (ties and
smaller give BEARISH); on the close series 100..109 with `window = 7` the
moving average is 106.0 and the trend is BULLISH. -/
theorem C5_trend_classifier :
    (∀ (closes : List ℚ) (w : ℕ), 1 ≤ w → closes.length < w →
      calculate_moving_average_core closes w = .error ("Not enough data points")) ∧
    (∀ (closes : List ℚ) (w : ℕ), 1 ≤ w → w ≤ closes.length →
      ∃ r, calculate_moving_average_core closes w = .ok r ∧
        r.current_price = closes.getLastD 0 ∧
        r.average_price = round2 (smaOf closes w) ∧
        (r.trend = ("BULLISH") ↔ closes.getLastD 0 > round2 (smaOf closes w)) ∧
        (r.trend = ("BEARISH") ↔ ¬ closes.getLastD 0 > round2 (smaOf closes w))) ∧
    smaOf demoCloses 7 = 106 ∧
    (∃ r, calculate_moving_average_core demoCloses 7 = .ok r ∧
      r.average_price = 106 ∧ r.trend = ("BULLISH")) := by
  have hsma : smaOf demoCloses 7 = 106 := by
    norm_num [smaOf, lastN, demoCloses]
  refine ⟨?_, ?_, hsma, ?_⟩
  · intro closes w _ hlen
    simp only [calculate_moving_average_core]
    rw [if_pos hlen]
  · intro closes w hw hlen
    refine ⟨_, ma_core_ok closes w hw hlen, rfl, rfl, ?_, ?_⟩
    · by_cases hcmp : closes.getLastD 0 > round2 (smaOf closes w)
      · simp [hcmp]
      · simp only [if_neg hcmp]
        constructor
        · intro h
          exact absurd h (by decide)
        · intro h
          exact absurd h hcmp
    · by_cases hcmp : closes.getLastD 0 > round2 (smaOf closes w)
      · simp only [if_pos hcmp]
        constructor
        · intro h
          exact absurd h (by decide)
        · intro h
          exact absurd hcmp h
      · simp [hcmp]
  · have h := ma_core_ok demoCloses 7 (by norm_num) (by norm_num [demoCloses])
    have hr2 : round2 (smaOf demoCloses 7) = 106 := by
      rw [hsma]
      norm_num [round2, roundHalfEven]
    rw [hr2] at h
    have hlast : demoCloses.getLastD 0 = 109 := by norm_num [demoCloses]
    rw [hlast] at h
    refine ⟨_, h, rfl, ?_⟩
    norm_num

/-- C5 witness: the amended theorem applied at the spec's concrete scenario and
at an empty series with `window = 1`. -/
theorem C5_trend_classifier_witness :
    calculate_moving_average_core ([] : List ℚ) 1 = .error ("Not enough data points") ∧
    (∃ r, calculate_moving_average_core demoCloses 7 = .ok r ∧
      r.average_price = 106 ∧ r.trend = ("BULLISH")) :=
  ⟨C5_trend_classifier.1 [] 1 (by norm_num) (by norm_num),
    C5_trend_classifier.2.2.2⟩

theorem roundHalfEven_int (z : ℤ) : roundHalfEven ((z : ℚ)) = z := by
  simp only [roundHalfEven, Int.floor_intCast]
  rw [if_pos (by norm_num)]

theorem round2_of_eq_int (q : ℚ) (z : ℤ) (h : q * 100 = (z : ℚ)) :
    round2 q = (z : ℚ) / 100 := by
  simp only [round2, h, roundHalfEven_int]

theorem predict_core_ok (closes : List ℚ) (fd : ℕ) (hne : closes ≠ [])
    (hfd : 1 ≤ fd) (hlast : closes.getLastD 0 ≠ 0) :
    predict_trend_core closes fd = .ok
      ⟨closes.getLastD 0, (forecastListOf closes fd).getLastD 0,
        (if olsSlope closes > 0 then ("UP") else ("DOWN")),
        round2 (((forecastListOf closes fd).getLastD 0 - closes.getLastD 0) /
          closes.getLastD 0 * 100)⟩ := by
  simp only [predict_trend_core]
  rw [if_neg (fun h => hne (List.length_eq_zero.mp h)), if_neg (by omega), if_neg hlast]

/-! ## Claim C2 -/

/-- C2: for every nonempty valid series and `forecast_days ≥ 1`, `predict_trend`
succeeds; the fitted line is the ordinary-least-squares fit of close against
day index 0..n-1 (its residual sum of squares is minimal over all affine fits,
and the slope defaults to 0 when n = 1, where the index variance vanishes); the
forecast for day `n-1+i` (`i = 1..forecast_days`) is
`slope*(n-1+i) + intercept` rounded to 2 decimals, the reported prediction is
the last of these, and the direction is UP exactly when the slope is positive
(slope 0 gives DOWN); on the series 100..109 with `forecast_days = 3` the slope
is 1, the intercept is 100, the forecast for day index 11 is 111.00 and the
direction is UP. -/
theorem C2_forecast_engine :
    (∀ (closes : List ℚ) (fd : ℕ), closes ≠ [] → (∀ c ∈ closes, 0 < c) → 1 ≤ fd →
      ∃ r, predict_trend_core closes fd = .ok r ∧
        r.predicted_price = (forecastListOf closes fd).getLastD 0 ∧
        (∀ i, 1 ≤ i → i ≤ fd → (forecastListOf closes fd).getD (i - 1) 0 =
          round2 (olsSlope closes * (((closes.length - 1 + i : ℕ) : ℚ)) +
            olsIntercept closes)) ∧
        (∀ a b : ℚ, RSS closes (olsSlope closes) (olsIntercept closes) ≤ RSS closes a b) ∧
        (closes.length = 1 → olsSlope closes = 0) ∧
        (r.direction = ("UP") ↔ 0 < olsSlope closes) ∧
        (r.direction = ("DOWN") ↔ ¬ 0 < olsSlope closes)) ∧
    olsSlope demoCloses = 1 ∧
    olsIntercept demoCloses = 100 ∧
    (forecastListOf demoCloses 3).getD 1 0 = 111 ∧
    (∃ r, predict_trend_core demoCloses 3 = .ok r ∧ r.direction = ("UP")) := by
  have hslope : olsSlope ([100, 101, 102, 103, 104, 105, 106, 107, 108, 109] : List ℚ) = 1 := by
    norm_num [olsSlope, Finset.sum_range_succ]
  have hicept : olsIntercept ([100, 101, 102, 103, 104, 105, 106, 107, 108, 109] : List ℚ) = 100 := by
    norm_num [olsIntercept, hslope, Finset.sum_range_succ]
  refine ⟨?_, hslope, hicept, ?_, ?_⟩
  · intro closes fd hne hpos hfd
    have hlast : closes.getLastD 0 ≠ 0 :=
      ne_of_gt (hpos _ (getLastD_mem closes 0 hne))
    refine ⟨_, predict_core_ok closes fd hne hfd hlast, rfl, ?_, rss_optimal closes hne,
      olsSlope_len_one closes, ?_, ?_⟩
    · intro i h1 h2
      rw [forecastListOf_getD closes fd i h1 h2]
      have hn1 : 1 ≤ closes.length := List.length_pos.mpr hne
      congr 1
      push_cast [Nat.cast_sub hn1]
      ring
    · by_cases hs : olsSlope closes > 0
      · simp [hs]
      · simp only [if_neg hs]
        constructor
        · intro h
          exact absurd h (by decide)
        · intro h
          exact absurd h hs
    · by_cases hs : olsSlope closes > 0
      · simp only [if_pos hs]
        constructor
        · intro h
          exact absurd h (by decide)
        · intro h
          exact absurd hs h
      · simp [hs]
  · have h111 : round2 (111 : ℚ) = 111 := by
      rw [round2_of_eq_int 111 11100 (by norm_num)]
      norm_num
    simp only [forecastListOf, demoCloses, hslope, hicept]
    norm_num [List.range_succ, h111]
  · refine ⟨_, predict_core_ok demoCloses 3 (by simp [demoCloses]) (by norm_num)
      (by norm_num [demoCloses]), ?_⟩
    have hs : olsSlope demoCloses = 1 := hslope
    show (if olsSlope demoCloses > 0 then ("UP") else ("DOWN")) = ("UP")
    rw [hs]
    norm_num

/-- C2 witness: the theorem's universal part applied at the spec's concrete
series and horizon. -/
theorem C2_forecast_engine_witness :
    ∃ r, predict_trend_core demoCloses 3 = .ok r ∧
      r.predicted_price = (forecastListOf demoCloses 3).getLastD 0 := by
  obtain ⟨r, hr, hp, -⟩ := C2_forecast_engine.1 demoCloses 3 (by simp [demoCloses])
    (by intro c hc; simp only [demoCloses] at hc; fin_cases hc <;> norm_num)
    (by norm_num)
  exact ⟨r, hr, hp⟩

/-! ## Claim C3 -/

/-- C3 counterexample: the strictly increasing positive close series
`[1, 2, 3, 4, 1000]` with `forecast_days = 1` yields direction UP but a final
predicted price of 802.0, strictly below the last actual close 1000, refuting
"a final predicted price greater than or equal to the last actual close". -/
theorem C3_counterexample :
    ∃ r, predict_trend_core [1, 2, 3, 4, 1000] 1 = .ok r ∧
      r.direction = ("UP") ∧ r.predicted_price < 1000 := by
  have hslope : olsSlope [1, 2, 3, 4, 1000] = 200 := by
    norm_num [olsSlope, Finset.sum_range_succ]
  have hicept : olsIntercept [1, 2, 3, 4, 1000] = -198 := by
    norm_num [olsIntercept, hslope, Finset.sum_range_succ]
  have h802 : round2 (802 : ℚ) = 802 := by
    rw [round2_of_eq_int 802 80200 (by norm_num)]
    norm_num
  have hfc : (forecastListOf [1, 2, 3, 4, 1000] 1).getLastD 0 = 802 := by
    simp only [forecastListOf, hslope, hicept]
    norm_num [List.range_succ, h802]
  refine ⟨_, predict_core_ok [1, 2, 3, 4, 1000] 1 (by simp) (by norm_num)
    (by norm_num), ?_, ?_⟩
  · rw [if_pos (by rw [hslope]; norm_num)]
  · rw [hfc]
    norm_num

/-- C3 (amended): for every strictly increasing valid close series of length at
least 2 and every `forecast_days ≥ 1`, the least-squares slope is strictly
positive and `predict_trend` returns direction UP; the final predicted price,
however, need not reach the last actual close (see the counterexample). -/
theorem C3_strictly_increasing_up (closes : List ℚ) (fd : ℕ)
    (hlen : 2 ≤ closes.length) (hmono : closes.Pairwise (· < ·))
    (hpos : ∀ c ∈ closes, 0 < c) (hfd : 1 ≤ fd) :
    0 < olsSlope closes ∧
      ∃ r, predict_trend_core closes fd = .ok r ∧ r.direction = ("UP") := by
  have hne : closes ≠ [] := by
    intro h
    rw [h] at hlen
    simp at hlen
  have hs := olsSlope_pos closes hlen hmono
  refine ⟨hs, _, predict_core_ok closes fd hne hfd
    (ne_of_gt (hpos _ (getLastD_mem closes 0 hne))), ?_⟩
  rw [if_pos hs]

/-- C3 witness: the amended theorem applied to the series `[1, 2]` with one
forecast day. -/
theorem C3_strictly_increasing_up_witness :
    0 < olsSlope [1, 2] ∧
      ∃ r, predict_trend_core [1, 2] 1 = .ok r ∧ r.direction = ("UP") :=
  C3_strictly_increasing_up [1, 2] 1 (by norm_num) (by norm_num)
    (by intro c hc; fin_cases hc <;> norm_num) (by norm_num)

theorem vol_core_ok (closes : List ℚ) (hne : closes ≠ [])
    (hnz : ¬ closes.dropLast.contains 0) :
    calculate_volatility_core closes = .ok
      ⟨(if populationVariance closes < 25 then ("LOW")
        else if populationVariance closes < 225 then ("MEDIUM") else ("HIGH")),
        round2 (pyMinD closes), round2 (pyMaxD closes), round2 (closes.getLastD 0)⟩ := by
  simp only [calculate_volatility_core]
  rw [if_neg (fun h => hne (List.length_eq_zero.mp h)), if_neg hnz]

theorem no_zero_dropLast (closes : List ℚ) (hpos : ∀ c ∈ closes, 0 < c) :
    ¬ closes.dropLast.contains 0 := by
  intro h
  have hmem : (0 : ℚ) ∈ closes.dropLast := by
    simpa using h
  have := hpos 0 ((List.dropLast_sublist closes).subset hmem)
  exact lt_irrefl 0 this

theorem populationVariance_const (c : ℚ) (k : ℕ) (hk : k ≠ 0) :
    populationVariance (List.replicate k c) = 0 := by
  have hk0 : (k : ℚ) ≠ 0 := Nat.cast_ne_zero.mpr hk
  simp only [populationVariance, List.sum_replicate, List.length_replicate,
    List.map_replicate, nsmul_eq_mul]
  rw [show (k : ℚ) * c / k = c by field_simp]
  simp

/-! ## Claim C6 -/

/-- C6: for every nonempty valid series the Risk Classifier succeeds, and its
tier is LOW exactly when the population standard deviation of the closes is
below 5, MEDIUM exactly when it lies in [5, 15), and HIGH exactly when it is at
least 15 (the code compares `variance ** 0.5`, which the embedding states via
`Real.sqrt` of the population variance); a constant series has variance 0,
standard deviation 0 and tier LOW; the empty series fails. -/
theorem C6_risk_classifier :
    (∀ (closes : List ℚ), closes ≠ [] → (∀ c ∈ closes, 0 < c) →
      ∃ r, calculate_volatility_core closes = .ok r ∧
        (r.risk_level = ("LOW") ↔
          Real.sqrt ((populationVariance closes : ℚ) : ℝ) < 5) ∧
        (r.risk_level = ("MEDIUM") ↔
          ((5 : ℝ) ≤ Real.sqrt ((populationVariance closes : ℚ) : ℝ) ∧
            Real.sqrt ((populationVariance closes : ℚ) : ℝ) < 15)) ∧
        (r.risk_level = ("HIGH") ↔
          (15 : ℝ) ≤ Real.sqrt ((populationVariance closes : ℚ) : ℝ))) ∧
    (∀ (c : ℚ) (k : ℕ), 0 < c → k ≠ 0 →
      populationVariance (List.replicate k c) = 0 ∧
      Real.sqrt ((populationVariance (List.replicate k c) : ℚ) : ℝ) = 0 ∧
      ∃ r, calculate_volatility_core (List.replicate k c) = .ok r ∧
        r.risk_level = ("LOW")) ∧
    calculate_volatility_core ([] : List ℚ) = .error ("division by zero") := by
  have hsqrt5 : ∀ v : ℚ, (Real.sqrt ((v : ℚ) : ℝ) < 5 ↔ v < 25) := by
    intro v
    rw [Real.sqrt_lt' (by norm_num), show ((5 : ℝ) ^ 2) = 25 by norm_num]
    exact ⟨fun h => by exact_mod_cast h, fun h => by exact_mod_cast h⟩
  have hsqrt15 : ∀ v : ℚ, (Real.sqrt ((v : ℚ) : ℝ) < 15 ↔ v < 225) := by
    intro v
    rw [Real.sqrt_lt' (by norm_num), show ((15 : ℝ) ^ 2) = 225 by norm_num]
    exact ⟨fun h => by exact_mod_cast h, fun h => by exact_mod_cast h⟩
  have hle5 : ∀ v : ℚ, ((5 : ℝ) ≤ Real.sqrt ((v : ℚ) : ℝ) ↔ 25 ≤ v) := by
    intro v
    simpa [not_lt] using not_congr (hsqrt5 v)
  have hle15 : ∀ v : ℚ, ((15 : ℝ) ≤ Real.sqrt ((v : ℚ) : ℝ) ↔ 225 ≤ v) := by
    intro v
    simpa [not_lt] using not_congr (hsqrt15 v)
  refine ⟨?_, ?_, rfl⟩
  · intro closes hne hpos
    refine ⟨_, vol_core_ok closes hne (no_zero_dropLast closes hpos), ?_, ?_, ?_⟩
    · rw [hsqrt5]
      by_cases h1 : populationVariance closes < 25
      · simp only [if_pos h1]
        exact iff_of_true trivial h1
      · by_cases h2 : populationVariance closes < 225
        · simp only [if_neg h1, if_pos h2]
          exact ⟨fun h => absurd h (by decide), fun h => absurd h h1⟩
        · simp only [if_neg h1, if_neg h2]
          exact ⟨fun h => absurd h (by decide), fun h => absurd h h1⟩
    · rw [hle5, hsqrt15]
      by_cases h1 : populationVariance closes < 25
      · simp only [if_pos h1]
        exact ⟨fun h => absurd h (by decide),
          fun h => absurd h1 (not_lt.mpr h.1)⟩
      · by_cases h2 : populationVariance closes < 225
        · simp only [if_neg h1, if_pos h2]
          exact iff_of_true trivial ⟨not_lt.mp h1, h2⟩
        · simp only [if_neg h1, if_neg h2]
          exact ⟨fun h => absurd h (by decide), fun h => absurd h.2 h2⟩
    · rw [hle15]
      by_cases h1 : populationVariance closes < 25
      · simp only [if_pos h1]
        exact ⟨fun h => absurd h (by decide),
          fun h => absurd (lt_trans h1 (by norm_num)) (not_lt.mpr h)⟩
      · by_cases h2 : populationVariance closes < 225
        · simp only [if_neg h1, if_pos h2]
          exact ⟨fun h => absurd h (by decide), fun h => absurd h2 (not_lt.mpr h)⟩
        · simp only [if_neg h1, if_neg h2]
          exact iff_of_true trivial (not_lt.mp h2)
  · intro c k hc hk
    have hvar := populationVariance_const c k hk
    have hne : List.replicate k c ≠ [] := by
      intro h
      have := congrArg List.length h
      simp at this
      exact hk this
    have hpos : ∀ x ∈ List.replicate k c, 0 < x := by
      intro x hx
      rw [List.eq_of_mem_replicate hx]
      exact hc
    refine ⟨hvar, by rw [hvar]; simp [Real.sqrt_zero], _,
      vol_core_ok (List.replicate k c) hne (no_zero_dropLast _ hpos), ?_⟩
    rw [hvar]
    norm_num

/-- C6 witness: the classifier applied to the constant series `[5, 5, 5]` and
to a concrete nonempty series. -/
theorem C6_risk_classifier_witness :
    (populationVariance (List.replicate 3 (5 : ℚ)) = 0 ∧
      Real.sqrt ((populationVariance (List.replicate 3 (5 : ℚ)) : ℚ) : ℝ) = 0 ∧
      ∃ r, calculate_volatility_core (List.replicate 3 (5 : ℚ)) = .ok r ∧
        r.risk_level = ("LOW")) ∧
    ∃ r, calculate_volatility_core [(2 : ℚ), 4] = .ok r ∧
      (r.risk_level = ("LOW") ↔ Real.sqrt ((populationVariance [(2 : ℚ), 4] : ℚ) : ℝ) < 5) := by
  constructor
  · exact C6_risk_classifier.2.1 5 3 (by norm_num) (by norm_num)
  · obtain ⟨r, hr, hlow, -, -⟩ := C6_risk_classifier.1 [(2 : ℚ), 4] (by simp)
      (by intro c hc; fin_cases hc <;> norm_num)
    exact ⟨r, hr, hlow⟩

theorem levels_core_ok (highs lows closes : List ℚ) (hc : closes ≠ []) :
    analyze_support_resistance_core highs lows closes = .ok
      ⟨round2 (pyMinD (supportLevels lows)), round2 (pyMaxD (resistanceLevels highs)),
        round2 (closes.getLastD 0),
        (if closes.getLastD 0 < pyMinD (supportLevels lows) then ("BUY")
         else if closes.getLastD 0 > pyMaxD (resistanceLevels highs) then ("SELL")
         else ("HOLD"))⟩ := by
  simp only [analyze_support_resistance_core]
  rw [if_neg (fun h => hc (List.length_eq_zero.mp h))]

theorem lastN_of_short (l : List α) (k : ℕ) (h : l.length ≤ k) : lastN k l = l := by
  simp only [lastN]
  rw [show l.length - k = 0 by omega]
  exact List.drop_zero l

theorem supportLevels_eq (lows : List ℚ) :
    supportLevels lows = (sortedDistinct (lastN 10 lows)).take 3 := by
  simp only [supportLevels]
  split_ifs with h
  · rfl
  · push_neg at h
    rw [lastN_of_short lows 10 (by omega)]

theorem resistanceLevels_eq (highs : List ℚ) :
    resistanceLevels highs = lastN 3 (sortedDistinct (lastN 10 highs)) := by
  simp only [resistanceLevels]
  split_ifs with h
  · rfl
  · push_neg at h
    rw [lastN_of_short highs 10 (by omega)]

theorem mem_take_or_lt (s : List ℚ) (hs : s.Pairwise (· < ·)) (k : ℕ) (y : ℚ)
    (hy : y ∈ s) : y ∈ s.take k ∨ ∀ x ∈ s.take k, x < y := by
  have hsplit := List.take_append_drop k s
  have hp : (s.take k ++ s.drop k).Pairwise (· < ·) := by
    rw [hsplit]
    exact hs
  rcases List.mem_append.mp (hsplit ▸ hy) with h | h
  · exact Or.inl h
  · right
    intro x hx
    exact (List.pairwise_append.mp hp).2.2 x hx y h

theorem mem_drop_or_lt (s : List ℚ) (hs : s.Pairwise (· < ·)) (k : ℕ) (y : ℚ)
    (hy : y ∈ s) : y ∈ s.drop k ∨ ∀ x ∈ s.drop k, y < x := by
  have hsplit := List.take_append_drop k s
  have hp : (s.take k ++ s.drop k).Pairwise (· < ·) := by
    rw [hsplit]
    exact hs
  rcases List.mem_append.mp (hsplit ▸ hy) with h | h
  · right
    intro x hx
    exact (List.pairwise_append.mp hp).2.2 y h x hx
  · exact Or.inl h

theorem nodup_of_pairwise_lt (s : List ℚ) (hs : s.Pairwise (· < ·)) : s.Nodup :=
  hs.imp (fun h => ne_of_lt h)

/-! ## Claim C7 -/

theorem sortedDistinct_singleton (a : ℚ) : sortedDistinct [a] = [a] := by
  simp [sortedDistinct, sortRat, insertRat, List.dedup_cons_of_not_mem]

/-- C7 counterexample: on a one-day series with low `0.001` the minimum support
level is `0.001`, but the returned `floor_price` is the rounded value `0.0`,
refuting "sets floor_price = min(support_levels)". -/
theorem C7_counterexample :
    ∃ r, analyze_support_resistance_core [7] [1/1000] [5] = .ok r ∧
      r.floor_price ≠ pyMinD (supportLevels [1/1000]) := by
  refine ⟨_, levels_core_ok [7] [1/1000] [5] (by simp), ?_⟩
  have hsup : supportLevels [1/1000] = [1/1000] := by
    rw [supportLevels_eq, lastN_of_short _ 10 (by norm_num), sortedDistinct_singleton]
    rfl
  rw [hsup]
  show round2 (pyMinD [1/1000]) ≠ pyMinD [1/1000]
  have hmin : pyMinD [(1/1000 : ℚ)] = 1/1000 := rfl
  rw [hmin]
  norm_num [round2, roundHalfEven]

/-- C7 (amended): for every nonempty series the Level Signal Generator
succeeds; the resistance candidates are the 3 highest distinct high values of
the most recent 10 points (all points when fewer than 10) and the support
candidates the 3 lowest distinct low values of the same window; `floor_price`
and `ceiling_price` are the minimum support and maximum resistance levels
rounded to 2 decimals; the signal is BUY exactly when the current close is
strictly below the minimum support level, SELL exactly when it is not and the
close is strictly above the maximum resistance level, and HOLD otherwise. -/
theorem C7_level_signal_generator (highs lows closes : List ℚ)
    (_hh : highs ≠ []) (_hl : lows ≠ []) (hc : closes ≠ []) :
    ∃ r, analyze_support_resistance_core highs lows closes = .ok r ∧
      (supportLevels lows).Pairwise (· < ·) ∧
      (∀ x ∈ supportLevels lows, x ∈ lastN 10 lows) ∧
      (∀ y ∈ lastN 10 lows, y ∈ supportLevels lows ∨ ∀ x ∈ supportLevels lows, x < y) ∧
      (supportLevels lows).length = min 3 (lastN 10 lows).dedup.length ∧
      (resistanceLevels highs).Pairwise (· < ·) ∧
      (∀ x ∈ resistanceLevels highs, x ∈ lastN 10 highs) ∧
      (∀ y ∈ lastN 10 highs,
        y ∈ resistanceLevels highs ∨ ∀ x ∈ resistanceLevels highs, y < x) ∧
      (resistanceLevels highs).length = min 3 (lastN 10 highs).dedup.length ∧
      r.floor_price = round2 (pyMinD (supportLevels lows)) ∧
      r.ceiling_price = round2 (pyMaxD (resistanceLevels highs)) ∧
      (r.signal = ("BUY") ↔ closes.getLastD 0 < pyMinD (supportLevels lows)) ∧
      (r.signal = ("SELL") ↔ ¬ closes.getLastD 0 < pyMinD (supportLevels lows) ∧
        closes.getLastD 0 > pyMaxD (resistanceLevels highs)) ∧
      (r.signal = ("HOLD") ↔ ¬ closes.getLastD 0 < pyMinD (supportLevels lows) ∧
        ¬ closes.getLastD 0 > pyMaxD (resistanceLevels highs)) := by
  have hsorted_l := sortedDistinct_strict (lastN 10 lows)
  have hsorted_h := sortedDistinct_strict (lastN 10 highs)
  refine ⟨_, levels_core_ok highs lows closes hc, ?_, ?_, ?_, ?_, ?_, ?_, ?_, ?_,
    rfl, rfl, ?_, ?_, ?_⟩
  · rw [supportLevels_eq]
    exact hsorted_l.sublist (List.take_sublist 3 _)
  · intro x hx
    rw [supportLevels_eq] at hx
    exact (mem_sortedDistinct _ _).mp ((List.take_sublist 3 _).subset hx)
  · intro y hy
    rw [supportLevels_eq]
    exact mem_take_or_lt _ hsorted_l 3 y ((mem_sortedDistinct _ _).mpr hy)
  · rw [supportLevels_eq, List.length_take,
      (sortedDistinct_perm_dedup (lastN 10 lows)).length_eq]
  · rw [resistanceLevels_eq]
    exact hsorted_h.sublist (List.drop_sublist _ _)
  · intro x hx
    rw [resistanceLevels_eq] at hx
    exact (mem_sortedDistinct _ _).mp ((List.drop_sublist _ _).subset hx)
  · intro y hy
    rw [resistanceLevels_eq]
    exact mem_drop_or_lt _ hsorted_h _ y ((mem_sortedDistinct _ _).mpr hy)
  · rw [resistanceLevels_eq]
    have hlen := (sortedDistinct_perm_dedup (lastN 10 highs)).length_eq
    simp only [lastN, List.length_drop] at hlen ⊢
    omega
  · by_cases h1 : closes.getLastD 0 < pyMinD (supportLevels lows)
    · simp only [if_pos h1]
      exact iff_of_true trivial h1
    · by_cases h2 : closes.getLastD 0 > pyMaxD (resistanceLevels highs)
      · simp only [if_neg h1, if_pos h2]
        exact ⟨fun h => absurd h (by decide), fun h => absurd h h1⟩
      · simp only [if_neg h1, if_neg h2]
        exact ⟨fun h => absurd h (by decide), fun h => absurd h h1⟩
  · by_cases h1 : closes.getLastD 0 < pyMinD (supportLevels lows)
    · simp only [if_pos h1]
      exact ⟨fun h => absurd h (by decide), fun h => absurd h1 (by exact fun _ => h.1 h1)⟩
    · by_cases h2 : closes.getLastD 0 > pyMaxD (resistanceLevels highs)
      · simp only [if_neg h1, if_pos h2]
        exact iff_of_true trivial ⟨h1, h2⟩
      · simp only [if_neg h1, if_neg h2]
        exact ⟨fun h => absurd h (by decide), fun h => absurd h.2 h2⟩
  · by_cases h1 : closes.getLastD 0 < pyMinD (supportLevels lows)
    · simp only [if_pos h1]
      exact ⟨fun h => absurd h (by decide), fun h => absurd h1 h.1⟩
    · by_cases h2 : closes.getLastD 0 > pyMaxD (resistanceLevels highs)
      · simp only [if_neg h1, if_pos h2]
        exact ⟨fun h => absurd h (by decide), fun h => absurd h2 h.2⟩
      · simp only [if_neg h1, if_neg h2]
        exact iff_of_true trivial ⟨h1, h2⟩

/-- C7 witness: the amended theorem applied to a concrete two-day series. -/
theorem C7_level_signal_generator_witness :
    ∃ r, analyze_support_resistance_core [10, 20] [1, 2] [5] = .ok r ∧
      (r.signal = ("HOLD") ↔ ¬ ([5] : List ℚ).getLastD 0 < pyMinD (supportLevels [1, 2]) ∧
        ¬ ([5] : List ℚ).getLastD 0 > pyMaxD (resistanceLevels [10, 20])) := by
  obtain ⟨r, hr, hrest⟩ := C7_level_signal_generator [10, 20] [1, 2] [5]
    (by simp) (by simp) (by simp)
  exact ⟨r, hr, hrest.2.2.2.2.2.2.2.2.2.2.2.2⟩

theorem dedup_const (l : List ℚ) (L : ℚ) (hne : l ≠ []) (hall : ∀ x ∈ l, x = L) :
    l.dedup = [L] := by
  induction l with
  | nil => simp at hne
  | cons a t ih =>
    have ha : a = L := hall a (List.mem_cons_self a t)
    subst ha
    cases t with
    | nil => simp
    | cons b u =>
      have hbu : ∀ x ∈ b :: u, x = a := fun x hx => hall x (List.mem_cons_of_mem a hx)
      have hmem : a ∈ b :: u := by
        rw [hbu b (List.mem_cons_self b u)]
        exact List.mem_cons_self a u
      rw [List.dedup_cons_of_mem hmem]
      exact ih (by simp) hbu

theorem lastN_ne_nil (k : ℕ) (l : List α) (hk : 1 ≤ k) (hne : l ≠ []) :
    lastN k l ≠ [] := by
  intro h
  have h2 := congrArg List.length h
  simp only [lastN, List.length_drop, List.length_nil] at h2
  have := List.length_pos.mpr hne
  omega

theorem sortedDistinct_ne_nil (l : List ℚ) (hne : l ≠ []) : sortedDistinct l ≠ [] := by
  obtain ⟨a, t, rfl⟩ := List.exists_cons_of_ne_nil hne
  have : a ∈ sortedDistinct (a :: t) := (mem_sortedDistinct _ a).mpr (by simp)
  intro h0
  rw [h0] at this
  simp at this

theorem sortedDistinct_const (l : List ℚ) (L : ℚ) (hne : l ≠ [])
    (hall : ∀ x ∈ l, x = L) : sortedDistinct l = [L] := by
  simp only [sortedDistinct]
  rw [dedup_const l L hne hall]
  rfl

theorem supportLevels_const (lows : List ℚ) (L : ℚ) (hne : lows ≠ [])
    (hall : ∀ x ∈ lows, x = L) : supportLevels lows = [L] := by
  rw [supportLevels_eq]
  rw [sortedDistinct_const (lastN 10 lows) L (lastN_ne_nil 10 lows (by omega) hne)
    (fun x hx => hall x ((List.drop_sublist _ _).subset hx))]
  rfl

theorem resistanceLevels_const (highs : List ℚ) (H : ℚ) (hne : highs ≠ [])
    (hall : ∀ x ∈ highs, x = H) : resistanceLevels highs = [H] := by
  rw [resistanceLevels_eq]
  rw [sortedDistinct_const (lastN 10 highs) H (lastN_ne_nil 10 highs (by omega) hne)
    (fun x hx => hall x ((List.drop_sublist _ _).subset hx))]
  rfl

/-! ## Claim C10 -/

/-- C10 counterexample: on the degenerate two-day series whose lows all equal
`L = 10.005` and highs all equal `H = 20` with current close 15, the generator
succeeds with signal HOLD, but `floor_price` is the rounded value `10.0`, not
`L`, refuting "it succeeds with floor_price = L". -/
theorem C10_counterexample :
    ∃ r, analyze_support_resistance_core [20, 20] [2001/200, 2001/200] [15, 15] =
        .ok r ∧ r.signal = ("HOLD") ∧ r.floor_price ≠ (2001/200 : ℚ) := by
  have hsup : supportLevels [2001/200, 2001/200] = [2001/200] :=
    supportLevels_const _ _ (by simp) (by intro x hx; fin_cases hx <;> rfl)
  have hres : resistanceLevels [20, 20] = [20] :=
    resistanceLevels_const _ _ (by simp) (by intro x hx; fin_cases hx <;> rfl)
  refine ⟨_, levels_core_ok [20, 20] [2001/200, 2001/200] [15, 15] (by simp), ?_, ?_⟩
  · show (if ([15, 15] : List ℚ).getLastD 0 < pyMinD (supportLevels [2001/200, 2001/200])
        then ("BUY")
      else if ([15, 15] : List ℚ).getLastD 0 > pyMaxD (resistanceLevels [20, 20])
        then ("SELL") else ("HOLD")) = ("HOLD")
    rw [hsup, hres]
    rw [if_neg (by norm_num [pyMinD]), if_neg (by norm_num [pyMaxD])]
  · show round2 (pyMinD (supportLevels [2001/200, 2001/200])) ≠ (2001/200 : ℚ)
    rw [hsup]
    show round2 (2001/200 : ℚ) ≠ (2001/200 : ℚ)
    have hval : round2 (2001/200 : ℚ) = 10 := by
      simp only [round2, roundHalfEven]
      norm_num
      rw [if_pos (show Even (1000 : ℤ) by decide)]
      norm_num
    rw [hval]
    norm_num

/-- C10 (amended): for every nonempty series the deduplicated support and
resistance candidate lists are nonempty, so the generator never fails; on a
degenerate series whose lows all equal `L` and highs all equal `H`, with
`L ≤ current close ≤ H`, it succeeds with the single levels `[L]` and `[H]`,
`floor_price = L` and `ceiling_price = H` rounded to 2 decimals, and signal
HOLD. -/
theorem C10_levels_nonempty :
    (∀ (highs lows closes : List ℚ), highs ≠ [] → lows ≠ [] → closes ≠ [] →
      ∃ r, analyze_support_resistance_core highs lows closes = .ok r ∧
        supportLevels lows ≠ [] ∧ resistanceLevels highs ≠ []) ∧
    (∀ (highs lows closes : List ℚ) (L H : ℚ), highs ≠ [] → lows ≠ [] → closes ≠ [] →
      (∀ x ∈ lows, x = L) → (∀ x ∈ highs, x = H) →
      L ≤ closes.getLastD 0 → closes.getLastD 0 ≤ H →
      ∃ r, analyze_support_resistance_core highs lows closes = .ok r ∧
        supportLevels lows = [L] ∧ resistanceLevels highs = [H] ∧
        r.floor_price = round2 L ∧ r.ceiling_price = round2 H ∧
        r.signal = ("HOLD")) := by
  constructor
  · intro highs lows closes hh hl hc
    refine ⟨_, levels_core_ok highs lows closes hc, ?_, ?_⟩
    · rw [supportLevels_eq]
      intro h0
      rcases (List.take_eq_nil_iff).mp h0 with h | h
      · exact absurd h (by norm_num)
      · exact sortedDistinct_ne_nil _ (lastN_ne_nil 10 lows (by omega) hl) h
    · rw [resistanceLevels_eq]
      exact lastN_ne_nil 3 _ (by omega)
        (sortedDistinct_ne_nil _ (lastN_ne_nil 10 highs (by omega) hh))
  · intro highs lows closes L H hh hl hc hallL hallH hLc hcH
    have hsup := supportLevels_const lows L hl hallL
    have hres := resistanceLevels_const highs H hh hallH
    refine ⟨_, levels_core_ok highs lows closes hc, hsup, hres, ?_, ?_, ?_⟩
    · show round2 (pyMinD (supportLevels lows)) = round2 L
      rw [hsup]
      rfl
    · show round2 (pyMaxD (resistanceLevels highs)) = round2 H
      rw [hres]
      rfl
    · show (if closes.getLastD 0 < pyMinD (supportLevels lows) then ("BUY")
        else if closes.getLastD 0 > pyMaxD (resistanceLevels highs) then ("SELL")
        else ("HOLD")) = ("HOLD")
      rw [hsup, hres, show pyMinD [L] = L from rfl, show pyMaxD [H] = H from rfl]
      rw [if_neg (not_lt.mpr hLc), if_neg (not_lt.mpr hcH)]

/-- C10 witness: the amended theorem applied to a concrete degenerate series
with `L = 3`, `H = 7` and close 5. -/
theorem C10_levels_nonempty_witness :
    ∃ r, analyze_support_resistance_core [7] [3] [5] = .ok r ∧
      supportLevels [3] = [(3 : ℚ)] ∧ resistanceLevels [7] = [(7 : ℚ)] ∧
      r.floor_price = round2 3 ∧ r.ceiling_price = round2 7 ∧
      r.signal = ("HOLD") :=
  C10_levels_nonempty.2 [7] [3] [5] 3 7 (by simp) (by simp) (by simp)
    (by intro x hx; fin_cases hx; rfl) (by intro x hx; fin_cases hx; rfl)
    (by norm_num) (by norm_num)

theorem movement_core_ok (data : List PricePoint) (db : ℕ)
    (hne : windowOf db data ≠ [])
    (hc0 : ((windowOf db data).map (fun p => p.close)).headD 0 ≠ 0) :
    analyze_price_movement_core data db = .ok
      ⟨sortDesc Alibi.confidence (genAlibis (windowOf db data)), db,
        round2 (priceChangeOf (windowOf db data)),
        round2 (priceChangePctOf (windowOf db data)),
        round2 (spikeOf (windowOf db data)),
        round2 (volatilityRangeOf (windowOf db data)),
        round2 (((windowOf db data).map (fun p => p.close)).getLastD 0),
        round2 (((windowOf db data).map (fun p => p.close)).headD 0)⟩ := by
  simp only [analyze_price_movement_core]
  rw [if_neg (fun h => hne (List.length_eq_zero.mp h)), if_neg hc0]

theorem movement_core_alibis (data : List PricePoint) (db : ℕ) (r : MovementOut)
    (h : analyze_price_movement_core data db = .ok r) :
    r.alibis = sortDesc Alibi.confidence (genAlibis (windowOf db data)) := by
  simp only [analyze_price_movement_core] at h
  split_ifs at h
  injection h with h2
  rw [← h2]

theorem genAlibis_rank_pairwise (recent : List PricePoint) :
    (genAlibis recent).Pairwise (fun a b => a.rank < b.rank) := by
  simp only [genAlibis]
  split_ifs <;>
    simp [List.pairwise_append, List.pairwise_cons, apply_ite Alibi.rank]

theorem genAlibis_conf_bounds (recent : List PricePoint) :
    ∀ a ∈ genAlibis recent, 0 ≤ a.confidence ∧ a.confidence ≤ 100 := by
  intro a ha
  simp only [genAlibis, List.mem_append] at ha
  rcases ha with (h1 | h2) | h3
  · by_cases hsp : spikeOf recent > 3/2
    · rw [if_pos hsp] at h1
      simp only [List.mem_singleton] at h1
      subst h1
      have hconf : (if priceChangeOf recent > 0 then
          (⟨1, titleBullish, min 85 (pyTrunc (spikeOf recent * 30))⟩ : Alibi)
        else ⟨1, titlePanic, min 85 (pyTrunc (spikeOf recent * 30))⟩).confidence =
          min 85 (pyTrunc (spikeOf recent * 30)) := by
        split_ifs <;> rfl
      rw [hconf]
      have h30 : (0 : ℚ) ≤ spikeOf recent * 30 := by linarith
      have htr : 0 ≤ pyTrunc (spikeOf recent * 30) := by
        simp only [pyTrunc, if_pos h30]
        exact Int.floor_nonneg.mpr h30
      exact ⟨le_min (by norm_num) htr, le_trans (min_le_left _ _) (by norm_num)⟩
    · rw [if_neg hsp] at h1
      simp at h1
  · by_cases hv : volatilityRangeOf recent > meanDailyRangeOf recent * (3/2)
    · rw [if_pos hv] at h2
      simp only [List.mem_singleton] at h2
      subst h2
      norm_num
    · rw [if_neg hv] at h2
      simp at h2
  · by_cases hlen : 1 < (recent.map (fun p => p.close)).length
    · rw [if_pos hlen] at h3
      split_ifs at h3 <;>
        (simp only [List.mem_singleton] at h3; subst h3; norm_num)
    · rw [if_neg hlen] at h3
      simp at h3

theorem volume_alibi_iff (recent : List PricePoint) :
    (∃ a ∈ genAlibis recent, a.rank = 1) ↔ spikeOf recent > 3/2 := by
  constructor
  · rintro ⟨a, ha, hrank⟩
    simp only [genAlibis, List.mem_append] at ha
    rcases ha with (h1 | h2) | h3
    · by_cases hsp : spikeOf recent > 3/2
      · exact hsp
      · rw [if_neg hsp] at h1
        simp at h1
    · by_cases hv : volatilityRangeOf recent > meanDailyRangeOf recent * (3/2)
      · rw [if_pos hv] at h2
        simp only [List.mem_singleton] at h2
        subst h2
        simp at hrank
      · rw [if_neg hv] at h2
        simp at h2
    · by_cases hlen : 1 < (recent.map (fun p => p.close)).length
      · rw [if_pos hlen] at h3
        split_ifs at h3 <;>
          (simp only [List.mem_singleton] at h3; subst h3; simp at hrank)
      · rw [if_neg hlen] at h3
        simp at h3
  · intro hsp
    refine ⟨if priceChangeOf recent > 0 then
        (⟨1, titleBullish, min 85 (pyTrunc (spikeOf recent * 30))⟩ : Alibi)
      else ⟨1, titlePanic, min 85 (pyTrunc (spikeOf recent * 30))⟩, ?_, ?_⟩
    · simp only [genAlibis, List.mem_append]
      left
      left
      rw [if_pos hsp]
      simp
    · split_ifs <;> rfl

theorem volume_alibi_props (recent : List PricePoint) :
    ∀ a ∈ genAlibis recent, a.rank = 1 →
      a.confidence = min 85 (pyTrunc (spikeOf recent * 30)) ∧
      (0 < priceChangeOf recent → a.title = titleBullish) ∧
      (priceChangeOf recent < 0 → a.title = titlePanic) := by
  intro a ha hrank
  simp only [genAlibis, List.mem_append] at ha
  rcases ha with (h1 | h2) | h3
  · by_cases hsp : spikeOf recent > 3/2
    · rw [if_pos hsp] at h1
      simp only [List.mem_singleton] at h1
      subst h1
      refine ⟨by split_ifs <;> rfl, ?_, ?_⟩
      · intro hpc
        rw [if_pos hpc]
      · intro hpc
        rw [if_neg (by linarith)]
    · rw [if_neg hsp] at h1
      simp at h1
  · by_cases hv : volatilityRangeOf recent > meanDailyRangeOf recent * (3/2)
    · rw [if_pos hv] at h2
      simp only [List.mem_singleton] at h2
      subst h2
      simp at hrank
    · rw [if_neg hv] at h2
      simp at h2
  · by_cases hlen : 1 < (recent.map (fun p => p.close)).length
    · rw [if_pos hlen] at h3
      split_ifs at h3 <;>
        (simp only [List.mem_singleton] at h3; subst h3; simp at hrank)
    · rw [if_neg hlen] at h3
      simp at h3

/-! ## Claim C8 -/

/-- C8: in every successful `analyze_price_movement` result, a rank-1
(volume-driven) explanation is present exactly when the window's volume-spike
ratio exceeds 1.5; any such explanation has confidence
`min(85, int(spike * 30))`, and its polarity follows the sign of the window's
price change (bullish surge when positive, panic selling when negative); in
the concrete scenario with a 9,000,000 trailing volume against a 3,000,000
five-day average (spike 3.0) and rising closes, the emitted volume explanation
has confidence `min(85, 90) = 85` and is ranked first. -/
theorem C8_volume_explanation :
    (∀ (data : List PricePoint) (db : ℕ) (r : MovementOut),
      analyze_price_movement_core data db = .ok r →
      ((∃ a ∈ r.alibis, a.rank = 1) ↔ spikeOf (windowOf db data) > 3/2) ∧
      (∀ a ∈ r.alibis, a.rank = 1 →
        a.confidence = min 85 (pyTrunc (spikeOf (windowOf db data) * 30)) ∧
        (0 < priceChangeOf (windowOf db data) → a.title = titleBullish) ∧
        (priceChangeOf (windowOf db data) < 0 → a.title = titlePanic))) ∧
    spikeOf demoMove = 3 ∧
    (∃ r t, analyze_price_movement_core demoMove 5 = .ok r ∧
      r.alibis = (⟨1, titleBullish, 85⟩ : Alibi) :: t) := by
  have hwin : windowOf 5 demoMove = demoMove := rfl
  have hspike : spikeOf demoMove = 3 := by
    norm_num [spikeOf, volumeSpikeOf, pyMaxD, demoMove, max_def, List.foldl]
  have hpc : priceChangeOf demoMove = 4 := by
    norm_num [priceChangeOf, demoMove]
  have hvol : volatilityRangeOf demoMove = 14 := by
    norm_num [volatilityRangeOf, pyMaxD, pyMinD, demoMove, max_def, min_def, List.foldl]
  have hmean : meanDailyRangeOf demoMove = 10 := by
    norm_num [meanDailyRangeOf, demoMove, List.zipWith]
  have hgen : genAlibis demoMove =
      [(⟨1, titleBullish, 85⟩ : Alibi), (⟨3, titleBounce, 65⟩ : Alibi)] := by
    simp only [genAlibis, hspike, hpc, hvol, hmean]
    norm_num [demoMove, pyMinD, pyTrunc, lastN, min_def, List.foldl]
  refine ⟨?_, hspike, ?_⟩
  · intro data db r h
    rw [movement_core_alibis data db r h]
    constructor
    · rw [← volume_alibi_iff (windowOf db data)]
      constructor
      · rintro ⟨a, ha, hrank⟩
        exact ⟨a, (sortDesc_perm _ _).mem_iff.mp ha, hrank⟩
      · rintro ⟨a, ha, hrank⟩
        exact ⟨a, (sortDesc_perm _ _).mem_iff.mpr ha, hrank⟩
    · intro a ha hrank
      exact volume_alibi_props (windowOf db data) a
        ((sortDesc_perm _ _).mem_iff.mp ha) hrank
  · have hok := movement_core_ok demoMove 5 (by rw [hwin]; simp [demoMove])
      (by rw [hwin]; norm_num [demoMove])
    refine ⟨_, [(⟨3, titleBounce, 65⟩ : Alibi)], hok, ?_⟩
    show sortDesc Alibi.confidence (genAlibis (windowOf 5 demoMove)) = _
    rw [hwin, hgen]
    norm_num [sortDesc, insertDesc]

/-- C8 witness: the universal part applied at the concrete spike scenario. -/
theorem C8_volume_explanation_witness :
    ∃ r, analyze_price_movement_core demoMove 5 = .ok r ∧
      ((∃ a ∈ r.alibis, a.rank = 1) ↔ spikeOf (windowOf 5 demoMove) > 3/2) := by
  have hok := movement_core_ok demoMove 5 (by simp [windowOf, demoMove])
    (by norm_num [windowOf, demoMove])
  exact ⟨_, hok, (C8_volume_explanation.1 demoMove 5 _ hok).1⟩

/-! ## Claim C9 -/

/-- C9: every successful `analyze_price_movement` result has its explanations
sorted in non-increasing order of confidence; equal-confidence explanations
appear in their original generation order (ranks strictly increase within
equal confidence, matching the stable sort); and every emitted explanation's
confidence is an integer in [0, 100]. -/
theorem C9_explanation_sets (data : List PricePoint) (db : ℕ) (r : MovementOut)
    (h : analyze_price_movement_core data db = .ok r) :
    r.alibis.Pairwise (fun a b => b.confidence ≤ a.confidence) ∧
    r.alibis.Pairwise (fun a b => a.confidence = b.confidence → a.rank < b.rank) ∧
    ∀ a ∈ r.alibis, 0 ≤ a.confidence ∧ a.confidence ≤ 100 := by
  rw [movement_core_alibis data db r h]
  refine ⟨sortDesc_sorted _ _, ?_, ?_⟩
  · refine sortDesc_stable _ _ _ (List.Pairwise.imp ?_ (genAlibis_rank_pairwise _))
    intro a b h2 _
    exact h2
  · intro a ha
    exact genAlibis_conf_bounds _ a ((sortDesc_perm _ _).mem_iff.mp ha)

/-- C9 witness: the invariants at a concrete successful analysis. -/
theorem C9_explanation_sets_witness :
    ∃ r, analyze_price_movement_core demoMove 5 = .ok r ∧
      r.alibis.Pairwise (fun a b => b.confidence ≤ a.confidence) ∧
      r.alibis.Pairwise (fun a b => a.confidence = b.confidence → a.rank < b.rank) ∧
      ∀ a ∈ r.alibis, 0 ≤ a.confidence ∧ a.confidence ≤ 100 := by
  have hok := movement_core_ok demoMove 5 (by simp [windowOf, demoMove])
    (by norm_num [windowOf, demoMove])
  exact ⟨_, hok, C9_explanation_sets demoMove 5 _ hok⟩

end StockPred
